import Mathlib

/-!
Verification development for the macors macro recorder / player.

The Rust sources (src/config.rs, src/macors.rs, src/main.rs) are shallowly
embedded below.  Machine integers (u64, usize) are modelled as Nat; the
f64 pixel coordinates carried by mouse events are modelled as Int, since
the program only stores them and compares them for equality.  The key and
button enumerations of the external input library (rdev / rdevin) are
modelled by small closed inductive types covering the unit variants used
in the claims; their textual names follow the library's derived Debug
formatting (for example KeyA for the A key, Left for the left button),
which is exactly what the program uses for display and for selector
matching.
-/

set_option maxRecDepth 4000

namespace Macors

/-- Decidable equality for Except values, used to evaluate the embedded
fallible operations on concrete inputs. -/
instance {ε α : Type} [DecidableEq ε] [DecidableEq α] : DecidableEq (Except ε α) := fun x y =>
  match x, y with
  | .ok a, .ok b =>
    if h : a = b then .isTrue (by rw [h]) else .isFalse (by intro hc; injection hc; contradiction)
  | .error e, .error f =>
    if h : e = f then .isTrue (by rw [h]) else .isFalse (by intro hc; injection hc; contradiction)
  | .ok _, .error _ => .isFalse (by intro hc; cases hc)
  | .error _, .ok _ => .isFalse (by intro hc; cases hc)

/-- Mouse buttons (unit variants of the input library's button enum). -/
inductive Button where
  | left
  | right
  | middle
deriving DecidableEq, Repr

/-- Keyboard keys (a representative closed subset of the unit variants of
the input library's key enum). -/
inductive Key where
  | escape
  | keyA
  | keyB
  | keyC
deriving DecidableEq, Repr

/-- Derived Debug name of a button, as produced by the formatting the Rust
code applies with the {:?} format specifier. -/
def buttonName : Button → String
  | .left => "Left"
  | .right => "Right"
  | .middle => "Middle"

/-- Derived Debug name of a key, as produced by the formatting the Rust
code applies with the {:?} format specifier. -/
def keyName : Key → String
  | .escape => "Escape"
  | .keyA => "KeyA"
  | .keyB => "KeyB"
  | .keyC => "KeyC"

/-- struct MouseEventButton { x: f64, y: f64, button: Button } -/
structure MouseEventButton where
  x : Int
  y : Int
  button : Button
deriving DecidableEq, Repr

/-- struct MouseEventMove { x: f64, y: f64 } -/
structure MouseEventMove where
  x : Int
  y : Int
deriving DecidableEq, Repr

/-- enum Event from src/macors.rs. -/
inductive Event where
  | keyPress (key : Key)
  | keyRelease (key : Key)
  | mousePress (m : MouseEventButton)
  | mouseRelease (m : MouseEventButton)
  | mouseMove (m : MouseEventMove)
  | wait (ms : Nat)
deriving DecidableEq, Repr

/-- struct Macro { description: String, events: Vec<Event> } from
src/macors.rs (named MacroData here). -/
structure MacroData where
  description : String
  events : List Event
deriving DecidableEq, Repr

/-- enum WaitStrategy from src/config.rs. -/
inductive WaitStrategy where
  | actual
  | constantMS (ms : Nat)
deriving DecidableEq, Repr

/-- The fields of struct Config (src/config.rs) that the recording core
reads; countdown_seconds is consumed outside the core. -/
structure Config where
  stopKeystrokes : List Key
  waitStrategy : WaitStrategy
  recordNonDragMouseMoves : Bool
  recordingInitialWaitMs : Nat
deriving Repr

/-- The backward stop-trim walk of src/macors.rs lines 110-123, expressed
on the reversed event list: the Rust loop runs i from len-1 down to 0 and
pops exactly one event per iteration (so at iteration i the vector is the
original prefix of length i+1 and events[i] is the original element i).
Processing the reversed list head-first is the same walk.  A matched
KeyPress pops the last outstanding stop key; when the last stop key is
matched the event is popped and the walk breaks, keeping the remainder. -/
def trimRev : List Event → List Key → List Event
  | [], _ => []
  | e :: rest, toPop =>
    match e with
    | Event.keyPress k =>
      if toPop.getLast? = some k then
        if toPop.length = 1 then rest
        else trimRev rest toPop.dropLast
      else trimRev rest toPop
    | _ => trimRev rest toPop

/-- Stop-sequence trimming of the recorded events (src/macors.rs 109-123):
walk the list backward, popping while matching stop-key presses from the
tail of stop_keystrokes toward its head; stop once all are matched. -/
def trimStopSuffix (events : List Event) (stop : List Key) : List Event :=
  (trimRev events.reverse stop).reverse

/-- Raw hook events delivered to the recording callback (rdev::EventType).
The raw button events carry no coordinates; MouseMove carries the new
pointer position. -/
inductive RawEvent where
  | keyPress (key : Key)
  | keyRelease (key : Key)
  | buttonPress (button : Button)
  | buttonRelease (button : Button)
  | mouseMove (x y : Int)
  | wheel
deriving DecidableEq, Repr

/-- The mutable session state of the recording callback in record()
(src/macors.rs 16-41): the accumulating macro events, the trailing-keys
window, the tracked pointer position, the button-down flag and the
last-event timestamp used by the Actual wait strategy. -/
structure RecState where
  events : List Event
  recentKeys : List Key
  mousePos : Int × Int
  mousePressed : Bool
  lastEventTime : Option Nat
deriving DecidableEq, Repr

/-- The `op_ev` computation of the recording callback (src/macors.rs
42-88): raw event to optional recorded event, plus the updates to the
trailing-keys window, pointer position and button flag. -/
def rawOpEvent (cfg : Config) (st : RecState) : RawEvent → Option Event × RecState
  | .keyPress k =>
      (some (.keyPress k), { st with recentKeys := st.recentKeys ++ [k] })
  | .keyRelease k =>
      (some (.keyRelease k), st)
  | .buttonPress b =>
      (some (.mousePress ⟨st.mousePos.1, st.mousePos.2, b⟩),
       { st with recentKeys := [], mousePressed := true })
  | .buttonRelease b =>
      (some (.mouseRelease ⟨st.mousePos.1, st.mousePos.2, b⟩),
       { st with recentKeys := [], mousePressed := false })
  | .mouseMove x y =>
      ((if cfg.recordNonDragMouseMoves || st.mousePressed
          then some (.mouseMove ⟨x, y⟩) else none),
       { st with mousePos := (x, y), recentKeys := [] })
  | .wheel => (none, st)

/-- One invocation of the recording callback up to the stop check
(src/macors.rs 42-106): compute op_ev, then, when an event is recorded,
push the synthesized Wait per the wait strategy followed by the event.
The first component of `timed` is the callback's Instant::now() in
milliseconds; the Actual strategy's duration_since is saturating, which
truncated Nat subtraction models. -/
def recordStep (cfg : Config) (st : RecState) (timed : Nat × RawEvent) : RecState :=
  let p := rawOpEvent cfg st timed.2
  match p.1 with
  | none => p.2
  | some ev =>
    match cfg.waitStrategy with
    | .actual =>
      let st2 :=
        match p.2.lastEventTime with
        | some prev => { p.2 with events := p.2.events ++ [Event.wait (timed.1 - prev)] }
        | none => p.2
      { st2 with lastEventTime := some timed.1, events := st2.events ++ [ev] }
    | .constantMS ms => { p.2 with events := p.2.events ++ [Event.wait ms, ev] }

/-- Session state at the beginning of record() (src/macors.rs 16-36): the
starting pointer position is queried from the device, and a
Wait(recording_initial_wait_ms) is pushed before the listener starts. -/
def initState (cfg : Config) (startPos : Int × Int) : RecState :=
  { events := [Event.wait cfg.recordingInitialWaitMs]
    recentKeys := []
    mousePos := startPos
    mousePressed := false
    lastEventTime := none }

/-- The default configuration from src/config.rs 39-48 (the countdown
field is consumed outside the core). -/
def defaultConfig : Config :=
  { stopKeystrokes := [.escape, .escape, .escape]
    waitStrategy := .constantMS 100
    recordNonDragMouseMoves := false
    recordingInitialWaitMs := 100 }

/-- The recording session loop (src/macors.rs 41-151): after each
delivered raw event, if the trailing-keys window ends with the configured
stop keystrokes, the trimmed events are persisted (Sum.inr) and the
session ends; otherwise the callback keeps listening.  An exhausted input
stream leaves the session open with its current state (Sum.inl). -/
def runRecord (cfg : Config) : RecState → List (Nat × RawEvent) → RecState ⊕ List Event
  | st, [] => Sum.inl st
  | st, timed :: rest =>
    let st1 := recordStep cfg st timed
    if cfg.stopKeystrokes.isSuffixOf st1.recentKeys then
      Sum.inr (trimStopSuffix st1.events cfg.stopKeystrokes)
    else runRecord cfg st1 rest

/-- The recorded-event stream of a raw input list: the events for which
op_ev is Some, threading the pointer position and button flag exactly as
rawOpEvent does.  Used to state the wait-synthesis theorem. -/
def opStream (nonDrag : Bool) : Int × Int → Bool → List RawEvent → List Event
  | _, _, [] => []
  | pos, pressed, .keyPress k :: rest => Event.keyPress k :: opStream nonDrag pos pressed rest
  | pos, pressed, .keyRelease k :: rest => Event.keyRelease k :: opStream nonDrag pos pressed rest
  | pos, _, .buttonPress b :: rest =>
      Event.mousePress ⟨pos.1, pos.2, b⟩ :: opStream nonDrag pos true rest
  | pos, _, .buttonRelease b :: rest =>
      Event.mouseRelease ⟨pos.1, pos.2, b⟩ :: opStream nonDrag pos false rest
  | _, pressed, .mouseMove x y :: rest =>
      if nonDrag || pressed then Event.mouseMove ⟨x, y⟩ :: opStream nonDrag (x, y) pressed rest
      else opStream nonDrag (x, y) pressed rest
  | pos, pressed, .wheel :: rest => opStream nonDrag pos pressed rest

/-- Timed variant of opStream, keeping each recorded event's timestamp;
used to state the Actual wait strategy's behaviour. -/
def opStreamT (nonDrag : Bool) : Int × Int → Bool → List (Nat × RawEvent) → List (Nat × Event)
  | _, _, [] => []
  | pos, pressed, (t, .keyPress k) :: rest => (t, Event.keyPress k) :: opStreamT nonDrag pos pressed rest
  | pos, pressed, (t, .keyRelease k) :: rest => (t, Event.keyRelease k) :: opStreamT nonDrag pos pressed rest
  | pos, _, (t, .buttonPress b) :: rest =>
      (t, Event.mousePress ⟨pos.1, pos.2, b⟩) :: opStreamT nonDrag pos true rest
  | pos, _, (t, .buttonRelease b) :: rest =>
      (t, Event.mouseRelease ⟨pos.1, pos.2, b⟩) :: opStreamT nonDrag pos false rest
  | _, pressed, (t, .mouseMove x y) :: rest =>
      if nonDrag || pressed then (t, Event.mouseMove ⟨x, y⟩) :: opStreamT nonDrag (x, y) pressed rest
      else opStreamT nonDrag (x, y) pressed rest
  | pos, pressed, (_, .wheel) :: rest => opStreamT nonDrag pos pressed rest

/-- Interleaving of the Actual wait strategy: no Wait before the first
recorded event, and Wait(now - previous_time) before every later one. -/
def actualTail : Option Nat → List (Nat × Event) → List Event
  | _, [] => []
  | none, (t, e) :: rest => e :: actualTail (some t) rest
  | some prev, (t, e) :: rest => Event.wait (t - prev) :: e :: actualTail (some t) rest

/-- ASCII digit test, as Rust's char::is_ascii_digit. -/
def isDigitChar (c : Char) : Bool :=
  decide (48 ≤ c.toNat) && decide (c.toNat ≤ 57)

/-- Decimal value of a digit string, as Rust's str::parse computes it
(most significant digit first). -/
def digitsToNat (ds : List Char) : Nat :=
  ds.foldl (fun a c => a * 10 + (c.toNat - 48)) 0

/-- The decimal digit d (d < 10) as a character. -/
def digitChar (d : Nat) : Char :=
  match d with
  | 0 => '0' | 1 => '1' | 2 => '2' | 3 => '3' | 4 => '4'
  | 5 => '5' | 6 => '6' | 7 => '7' | 8 => '8' | _ => '9'

/-- Division loop of the decimal printer, structurally recursive on a
fuel bound (n+1 divisions by ten always suffice, as the wrapper
supplies). -/
def natToCharsAux : Nat → Nat → List Char
  | 0, _ => []
  | fuel + 1, n =>
    if n < 10 then [digitChar n]
    else natToCharsAux fuel (n / 10) ++ [digitChar (n % 10)]

/-- Decimal representation of a Nat (most significant digit first), as
Rust's Display for unsigned integers. -/
def natToChars (n : Nat) : List Char := natToCharsAux (n + 1) n

/-- Decimal representation of an Int, as Rust's Display for i64. -/
def intToChars (i : Int) : List Char :=
  if i < 0 then '-' :: natToChars i.natAbs else natToChars i.natAbs

def natToString (n : Nat) : String := String.mk (natToChars n)

def intToString (i : Int) : String := String.mk (intToChars i)

/-- ASCII lower-casing of one character, as Rust's to_ascii_lowercase. -/
def asciiLower (c : Char) : Char :=
  if 65 ≤ c.toNat ∧ c.toNat ≤ 90 then Char.ofNat (c.toNat + 32) else c

/-- Rust's str::eq_ignore_ascii_case. -/
def eqIgnoreAsciiCase (a b : String) : Bool :=
  decide (a.data.map asciiLower = b.data.map asciiLower)

/-- button_eq from src/main.rs 557-559: case-insensitive comparison of a
selector detail with the button's Debug name. -/
def buttonEq (name : String) (b : Button) : Bool :=
  eqIgnoreAsciiCase name (buttonName b)

/-- key_eq from src/main.rs 561-563: case-insensitive comparison of a
selector detail with the key's Debug name. -/
def keyEq (name : String) (k : Key) : Bool :=
  eqIgnoreAsciiCase name (keyName k)

/-- Rust's str::split on a one-character separator: n separators yield
n+1 pieces, empty pieces included. -/
def splitOnChar (sep : Char) : List Char → List (List Char)
  | [] => [[]]
  | c :: cs =>
    if c = sep then [] :: splitOnChar sep cs
    else
      match splitOnChar sep cs with
      | [] => [[c]]
      | h :: t => (c :: h) :: t

/-- The ASCII digits of the ordinal segment, in order (src/main.rs 493). -/
def extractDigits (cs : List Char) : List Char := cs.filter isDigitChar

/-- usize::MAX on the 64-bit platforms the program targets. -/
def usizeMax : Nat := 18446744073709551615

/-- Rust's digits.parse::<usize>() on an all-digit string: fails when the
string is empty or the value overflows usize. -/
def parseUsize (cs : List Char) : Option Nat :=
  if cs = [] then none
  else if digitsToNat cs > usizeMax then none
  else some (digitsToNat cs)

/-- enum EventSelector from src/main.rs 396-404. -/
inductive EventSelector where
  | mousePress (detail : Option String)
  | mouseRelease (detail : Option String)
  | mouseMove
  | wait
  | keyPress (detail : Option String)
  | keyRelease (detail : Option String)
deriving DecidableEq, Repr

/-- struct ActionSelector from src/main.rs 390-394. -/
structure ActionSelector where
  selector : EventSelector
  ordinal : Nat
deriving DecidableEq, Repr

/-- The kind-token dispatch of parse_action (src/main.rs 507-515). -/
def mkSelector (kind : String) (detail : Option String) (ordinal : Nat) :
    Except String ActionSelector :=
  if kind = "mouse_press" then .ok ⟨.mousePress detail, ordinal⟩
  else if kind = "mouse_release" then .ok ⟨.mouseRelease detail, ordinal⟩
  else if kind = "mouse_move" then .ok ⟨.mouseMove, ordinal⟩
  else if kind = "wait" then .ok ⟨.wait, ordinal⟩
  else if kind = "key_press" then .ok ⟨.keyPress detail, ordinal⟩
  else if kind = "key_release" then .ok ⟨.keyRelease detail, ordinal⟩
  else .error ("unsupported event kind: " ++ kind)

/-- parse_action from src/main.rs 481-518: split on ':' (exactly two
segments), take the ASCII digits of the ordinal segment and parse them as
usize, split the head on '.' into kind and optional detail, then dispatch
on the kind token. -/
def parseAction (raw : String) : Except String ActionSelector :=
  match splitOnChar ':' raw.data with
  | [] => .error "missing selector before ':'"
  | [_] => .error "missing ordinal after ':'"
  | [head, ordRaw] =>
    match parseUsize (extractDigits ordRaw) with
    | none => .error "ordinal is not a number"
    | some ordinal =>
      match splitOnChar '.' head with
      | [] => .error "missing event kind"
      | [kind] => mkSelector (String.mk kind) none ordinal
      | [kind, detail] => mkSelector (String.mk kind) (some (String.mk detail)) ordinal
      | _ => .error "too many '.' segments"
  | _ => .error "too many ':' segments"

/-- The detail a parsed selector carries (none for the kinds whose
variants have no detail field). -/
def selectorDetail : EventSelector → Option String
  | .mousePress d => d
  | .mouseRelease d => d
  | .keyPress d => d
  | .keyRelease d => d
  | .mouseMove => none
  | .wait => none

/-- matches_selector from src/main.rs 533-555. -/
def matchesSelector (ev : Event) (sel : EventSelector) : Bool :=
  match sel, ev with
  | .wait, .wait _ => true
  | .mouseMove, .mouseMove _ => true
  | .mousePress ob, .mousePress m =>
      match ob with
      | some b => buttonEq b m.button
      | none => true
  | .mouseRelease ob, .mouseRelease m =>
      match ob with
      | some b => buttonEq b m.button
      | none => true
  | .keyPress ok, .keyPress k =>
      match ok with
      | some kn => keyEq kn k
      | none => true
  | .keyRelease ok, .keyRelease k =>
      match ok with
      | some kn => keyEq kn k
      | none => true
  | _, _ => false

/-- The scanning loop of find_event_index (src/main.rs 520-531), with the
running index and the match counter made explicit. -/
def findEventIndexAux (sel : ActionSelector) : List Event → Nat → Nat → Option Nat
  | [], _, _ => none
  | e :: rest, idx, seen =>
    if matchesSelector e sel.selector then
      if seen + 1 = sel.ordinal then some idx
      else findEventIndexAux sel rest (idx + 1) (seen + 1)
    else findEventIndexAux sel rest (idx + 1) seen

/-- find_event_index from src/main.rs 520-531. -/
def findEventIndex (events : List Event) (sel : ActionSelector) : Option Nat :=
  findEventIndexAux sel events 0 0

/-- Number of events of a list matching a selector. -/
def countMatches (s : EventSelector) (l : List Event) : Nat :=
  (l.filter (fun e => matchesSelector e s)).length

/-- The distinct failure modes of the action-selector path of the Run and
Edit commands (src/main.rs 146-161): a parse failure with its reason, the
ordinal-zero rejection, and an unresolved selector. -/
inductive RunActionError where
  | invalidAction (msg : String)
  | ordinalZero
  | unresolved
deriving DecidableEq, Repr

/-- The action-resolution pipeline of main's Run command (src/main.rs
146-161): parse, reject ordinal 0, then resolve against the events. -/
def resolveAction (raw : String) (events : List Event) : Except RunActionError Nat :=
  match parseAction raw with
  | .error e => .error (.invalidAction e)
  | .ok sel =>
    if sel.ordinal = 0 then .error .ordinalZero
    else
      match findEventIndex events sel with
      | none => .error .unresolved
      | some i => .ok i

/-- The sequence of events handed to simulate by main's Run command when
an action selector is given (src/main.rs 185-191): the resolved event,
once per repetition. -/
def runActionTrace (events : List Event) (raw : String) (rep : Nat) :
    Except RunActionError (List Event) :=
  match resolveAction raw events with
  | .error e => .error e
  | .ok i =>
    match events.get? i with
    | some ev => .ok (List.replicate rep ev)
    | none => .error .unresolved

/-- Whether a selector addresses Wait events. -/
def selectorIsWait : EventSelector → Bool
  | .wait => true
  | _ => false

/-- The event a selector resolves to within a macro's event list. -/
def resolvedEvent (events : List Event) (sel : ActionSelector) : Option Event :=
  (findEventIndex events sel).bind events.get?

/-- struct ClickCollapse from src/main.rs 423-431 (the borrowed button and
the x,y already truncated to i64). -/
structure ClickCollapse where
  releaseIdx : Nat
  waitsConsumed : Nat
  waitMsTotal : Nat
  button : Button
  x : Int
  y : Int
deriving DecidableEq, Repr

/-- is_same_click from src/main.rs 433-435: identical button and identical
coordinates. -/
def isSameClick (a b : MouseEventButton) : Bool :=
  decide (a.button = b.button) && decide (a.x = b.x) && decide (a.y = b.y)

/-- The while loop of try_collapse_click (src/main.rs 446-465): consume
Wait events, then require a MouseRelease matching the press; anything
else prevents the collapse. -/
def collapseLoop (events : List Event) (press : MouseEventButton)
    (idx waits total : Nat) : Option ClickCollapse :=
  match _h : events.get? idx with
  | some (.wait ms) => collapseLoop events press (idx + 1) (waits + 1) (total + ms)
  | some (.mouseRelease rel) =>
    if isSameClick press rel then
      some ⟨idx, waits, total, press.button, press.x, press.y⟩
    else none
  | some _ => none
  | none => none
termination_by events.length - idx
decreasing_by
  have hlt : idx < events.length := by
    by_contra hc
    rw [List.get?_eq_none.mpr (by omega)] at _h
    cases _h
  omega

/-- try_collapse_click from src/main.rs 437-468. -/
def tryCollapseClick (events : List Event) (startIdx : Nat) : Option ClickCollapse :=
  match events.get? startIdx with
  | some (.mousePress press) => collapseLoop events press (startIdx + 1) 0 0
  | _ => none

/-- stat_label from src/main.rs 470-479. -/
def statLabel : Event → String
  | .wait _ => "wait"
  | .mouseMove _ => "mouse_move"
  | .mousePress m => "mouse_press." ++ buttonName m.button
  | .mouseRelease m => "mouse_release." ++ buttonName m.button
  | .keyPress k => "key_press." ++ keyName k
  | .keyRelease k => "key_release." ++ keyName k

/-- describe_event from src/main.rs 406-421 (coordinates printed after
the f64-to-i64 truncation, which is the identity on our Int model). -/
def describeEvent : Event → String
  | .wait ms => "wait " ++ natToString ms ++ " ms"
  | .mousePress m =>
      "mouse_press " ++ buttonName m.button ++ " at (" ++ intToString m.x ++ ", "
        ++ intToString m.y ++ ")"
  | .mouseRelease m =>
      "mouse_release " ++ buttonName m.button ++ " at (" ++ intToString m.x ++ ", "
        ++ intToString m.y ++ ")"
  | .mouseMove m =>
      "mouse_move to (" ++ intToString m.x ++ ", " ++ intToString m.y ++ ")"
  | .keyPress k => "key_press " ++ keyName k
  | .keyRelease k => "key_release " ++ keyName k

def isWaitEvent : Event → Bool
  | .wait _ => true
  | _ => false

def isMousePressEvent : Event → Bool
  | .mousePress _ => true
  | _ => false

/-- The mutable state of the Show command's loop (src/main.rs 257-259):
the 1-based display counter, the per-label counts, and the printed
lines. -/
structure ShowState where
  shown : Nat
  stats : List (String × Nat)
  lines : List String
deriving DecidableEq, Repr

/-- *stats.entry(label).or_insert(0) += d, with the HashMap modelled as an
association list (the Show command sorts the entries before printing, so
the map's iteration order is immaterial). -/
def bump (stats : List (String × Nat)) (label : String) (d : Nat) :
    List (String × Nat) :=
  match stats with
  | [] => [(label, d)]
  | (l, c) :: rest =>
    if l = label then (l, c + d) :: rest else (l, c) :: bump rest label d

/-- The "{:>4}" right-aligned rendering of the display counter. -/
def padShown (n : Nat) : String :=
  String.mk (List.replicate (4 - (natToChars n).length) ' ') ++ natToString n

/-- The fall-through body of the Show loop (src/main.rs 288-294): count
the event as shown, print it when not in statistics mode, and bump its
stat label. -/
def plainStep (stat : Bool) (st : ShowState) (ev : Event) : ShowState :=
  { shown := st.shown + 1
    stats := bump st.stats (statLabel ev) 1
    lines := st.lines ++
      (if stat then [] else [padShown (st.shown + 1) ++ ": " ++ describeEvent ev]) }

/-- The click message of src/main.rs 272-275. -/
def clickMsg (all : Bool) (c : ClickCollapse) : String :=
  let base := "click on (" ++ intToString c.x ++ ", " ++ intToString c.y ++ ")"
  if all && decide (0 < c.waitMsTotal) then
    base ++ " (+wait " ++ natToString c.waitMsTotal ++ " ms)"
  else base

/-- The collapse body of the Show loop (src/main.rs 269-284). -/
def clickStep (stat all : Bool) (st : ShowState) (c : ClickCollapse) : ShowState :=
  let stats1 :=
    if stat && all && decide (0 < c.waitsConsumed) then bump st.stats "wait" c.waitsConsumed
    else st.stats
  { shown := st.shown + 1
    stats := bump stats1 ("click." ++ buttonName c.button) 1
    lines := st.lines ++
      (if stat then [] else [padShown (st.shown + 1) ++ ": " ++ clickMsg all c]) }

/-- The Show command's cursor loop (src/main.rs 260-295), expressed on the
remaining sublist: Wait events are skipped when --all is not given; at a
MousePress a collapse is attempted (try_collapse_click only inspects the
events from the cursor on, so it is applied to the remaining sublist at
relative index 0), and on success the cursor jumps past the release;
otherwise the event is rendered plainly and the cursor advances by one. -/
def showLoopAux (stat all : Bool) : List Event → ShowState → ShowState
  | [], st => st
  | ev :: rest, st =>
    if !all && isWaitEvent ev then showLoopAux stat all rest st
    else if isMousePressEvent ev then
      match tryCollapseClick (ev :: rest) 0 with
      | some c => showLoopAux stat all (rest.drop c.releaseIdx) (clickStep stat all st c)
      | none => showLoopAux stat all rest (plainStep stat st ev)
    else showLoopAux stat all rest (plainStep stat st ev)
termination_by l _ => l.length
decreasing_by
  all_goals simp [List.length_drop]
  all_goals omega

/-- Byte-lexicographic order on strings (Rust's Ord for str on the ASCII
labels produced by stat_label). -/
def charListLe : List Char → List Char → Bool
  | [], _ => true
  | _ :: _, [] => false
  | a :: as, b :: bs =>
    if a = b then charListLe as bs else decide (a.toNat < b.toNat)

/-- Insertion step of sorting the stat entries by label. -/
def insertLabel (p : String × Nat) : List (String × Nat) → List (String × Nat)
  | [] => [p]
  | q :: qs => if charListLe p.1.data q.1.data then p :: q :: qs else q :: insertLabel p qs

/-- entries.sort_by(|a, b| a.0.cmp(b.0)) from src/main.rs 298-299. -/
def sortStats (l : List (String × Nat)) : List (String × Nat) :=
  l.foldl (fun acc p => insertLabel p acc) []

/-- The lines printed by the Show command (src/main.rs 257-303): the
itemized listing when not in statistics mode, and the label-sorted
"label: count" lines when it is. -/
def showOutput (events : List Event) (stat all : Bool) : List String :=
  let st := showLoopAux stat all events ⟨0, [], []⟩
  st.lines ++
    (if stat then (sortStats st.stats).map (fun p => p.1 ++ ": " ++ natToString p.2)
     else [])

/-- Boolean list-prefix test (pattern against an input). -/
def startsWith : List Char → List Char → Bool
  | [], _ => true
  | _ :: _, [] => false
  | p :: ps, c :: cs => decide (p = c) && startsWith ps cs

/-- Rust's str::replace (src/macors.rs 129): rewrite every non-overlapping
occurrence of a nonempty pattern, scanning left to right.  (An empty
pattern never fires here; the program's pattern is nonempty.) -/
def replaceList (p r : List Char) : List Char → List Char
  | [] => []
  | c :: cs =>
    if _h : p ≠ [] ∧ startsWith p (c :: cs) = true then
      r ++ replaceList p r ((c :: cs).drop p.length)
    else c :: replaceList p r cs
termination_by l => l.length
decreasing_by
  · have hp : 1 ≤ p.length := by
      rcases _h with ⟨h1, -⟩
      cases p
      · exact absurd rfl h1
      · simp
    simp [List.length_drop]
    omega
  · simp

/-- Modelled from the spec: TOML basic-string escaping applied by the
external toml crate when serializing the description (backslash, quote
and the control characters the description may contain are escaped, so
the emitted text stays on one line). -/
def escapeChar (c : Char) : List Char :=
  if c = '\\' then ['\\', '\\']
  else if c = '"' then ['\\', '"']
  else if c = '\n' then ['\\', 'n']
  else if c = '\r' then ['\\', 'r']
  else if c = '\t' then ['\\', 't']
  else [c]

def escapeString (s : List Char) : List Char := (s.map escapeChar).flatten

/-- Modelled from the spec: decoding of one escape sequence of the stored
text format. -/
def unescapeChar (d : Char) : Char :=
  if d = 'n' then '\n' else if d = 'r' then '\r' else if d = 't' then '\t' else d

/-- Modelled from the spec: scan a quoted string of the stored text format
up to its closing quote, decoding escapes; returns the decoded content and
the input after the quote. -/
def scanString : List Char → Option (List Char × List Char)
  | [] => none
  | c :: cs =>
    if c = '"' then some ([], cs)
    else if c = '\\' then
      match cs with
      | [] => none
      | d :: cs2 => (scanString cs2).map (fun p => (unescapeChar d :: p.1, p.2))
    else (scanString cs).map (fun p => (c :: p.1, p.2))
termination_by l => l.length
decreasing_by
  · simp
    omega
  · simp

def eventsMarker : List Char := "[[events]]\n".data

def eventsMarkerPre : List Char := "[[events]]\n\n".data

def descLit : List Char := "description = \"".data

def kpLit : List Char := "key_press = \"".data

def krLit : List Char := "key_release = \"".data

def waitLit : List Char := "wait = ".data

def mpLit : List Char := "[events.mouse_press]\nx = ".data

def mrLit : List Char := "[events.mouse_release]\nx = ".data

def mmLit : List Char := "[events.mouse_move]\nx = ".data

def yLit : List Char := "\ny = ".data

def btnLit : List Char := "\nbutton = \"".data

def closeQuoteNl : List Char := "\"\n".data

/-- Modelled from the spec: the tagged record the external toml crate
emits for one event under its [[events]] marker (a kind tag plus the
variant's fields: key/button name, x, y, or ms). -/
def eventFields : Event → List Char
  | .keyPress k => kpLit ++ (keyName k).data ++ closeQuoteNl
  | .keyRelease k => krLit ++ (keyName k).data ++ closeQuoteNl
  | .wait ms => waitLit ++ natToChars ms ++ ['\n']
  | .mousePress m =>
      mpLit ++ intToChars m.x ++ yLit ++ intToChars m.y ++ btnLit
        ++ (buttonName m.button).data ++ closeQuoteNl
  | .mouseRelease m =>
      mrLit ++ intToChars m.x ++ yLit ++ intToChars m.y ++ btnLit
        ++ (buttonName m.button).data ++ closeQuoteNl
  | .mouseMove m =>
      mmLit ++ intToChars m.x ++ yLit ++ intToChars m.y ++ ['\n']

/-- Modelled from the spec: the text the external toml crate produces for
a macro before the program's cosmetic pass - the description line, then
one array-style section marker per event followed by a blank separator
line and the event's fields. -/
def serializeChars (m : MacroData) : List Char :=
  descLit ++ escapeString m.description.data ++ closeQuoteNl
    ++ (m.events.map (fun e => eventsMarkerPre ++ eventFields e)).flatten

/-- The stored text of a macro: the serialized form after the program's
cosmetic pass toml_string.replace("[[events]]\n\n", "[[events]]\n")
(src/macors.rs 125-129). -/
def storedText (m : MacroData) : List Char :=
  replaceList eventsMarkerPre eventsMarker (serializeChars m)

/-- The stored text with the blank separator lines already removed; the
cosmetic pass is proved to produce exactly this form. -/
def serializePostChars (m : MacroData) : List Char :=
  descLit ++ escapeString m.description.data ++ closeQuoteNl
    ++ (m.events.map (fun e => eventsMarker ++ eventFields e)).flatten

/-- Modelled from the spec: recover a key from its stored canonical
name. -/
def nameToKey (s : String) : Option Key :=
  if s = "Escape" then some .escape
  else if s = "KeyA" then some .keyA
  else if s = "KeyB" then some .keyB
  else if s = "KeyC" then some .keyC
  else none

/-- Modelled from the spec: recover a button from its stored canonical
name. -/
def nameToButton (s : String) : Option Button :=
  if s = "Left" then some .left
  else if s = "Right" then some .right
  else if s = "Middle" then some .middle
  else none

/-- Consume an expected literal. -/
def dropLit (lit cs : List Char) : Option (List Char) :=
  if startsWith lit cs then some (cs.drop lit.length) else none

/-- Consume one expected character. -/
def expectChar (c : Char) : List Char → Option (List Char)
  | [] => none
  | d :: rest => if d = c then some rest else none

/-- Parse a decimal Nat (a nonempty run of ASCII digits). -/
def parseNatChars (cs : List Char) : Option (Nat × List Char) :=
  let ds := cs.takeWhile isDigitChar
  if ds = [] then none else some (digitsToNat ds, cs.dropWhile isDigitChar)

/-- Parse a decimal Int (optional leading minus sign). -/
def parseIntChars (cs : List Char) : Option (Int × List Char) :=
  match cs with
  | [] => none
  | c :: rest =>
    if c = '-' then (parseNatChars rest).map (fun p => ((-(p.1 : Int) : Int), p.2))
    else (parseNatChars cs).map (fun p => (((p.1 : Int) : Int), p.2))

/-- Parse the `x = <int>\ny = <int>` coordinate fields. -/
def parseXY (cs : List Char) : Option (Int × Int × List Char) :=
  (parseIntChars cs).bind fun px =>
    (dropLit yLit px.2).bind fun r2 =>
      (parseIntChars r2).map fun py => (px.1, py.1, py.2)

/-- Modelled from the spec: parse one tagged event record of the stored
text format (the fields following one [[events]] marker). -/
def parseOneEvent (cs : List Char) : Option (Event × List Char) :=
  if startsWith kpLit cs then
    (scanString (cs.drop kpLit.length)).bind fun pn =>
      (expectChar '\n' pn.2).bind fun r2 =>
        (nameToKey (String.mk pn.1)).map fun k => (Event.keyPress k, r2)
  else if startsWith krLit cs then
    (scanString (cs.drop krLit.length)).bind fun pn =>
      (expectChar '\n' pn.2).bind fun r2 =>
        (nameToKey (String.mk pn.1)).map fun k => (Event.keyRelease k, r2)
  else if startsWith waitLit cs then
    (parseNatChars (cs.drop waitLit.length)).bind fun pm =>
      (expectChar '\n' pm.2).map fun r2 => (Event.wait pm.1, r2)
  else if startsWith mpLit cs then
    (parseXY (cs.drop mpLit.length)).bind fun pxy =>
      (dropLit btnLit pxy.2.2).bind fun r3 =>
        (scanString r3).bind fun pn =>
          (expectChar '\n' pn.2).bind fun r4 =>
            (nameToButton (String.mk pn.1)).map fun b =>
              (Event.mousePress ⟨pxy.1, pxy.2.1, b⟩, r4)
  else if startsWith mrLit cs then
    (parseXY (cs.drop mrLit.length)).bind fun pxy =>
      (dropLit btnLit pxy.2.2).bind fun r3 =>
        (scanString r3).bind fun pn =>
          (expectChar '\n' pn.2).bind fun r4 =>
            (nameToButton (String.mk pn.1)).map fun b =>
              (Event.mouseRelease ⟨pxy.1, pxy.2.1, b⟩, r4)
  else if startsWith mmLit cs then
    (parseXY (cs.drop mmLit.length)).bind fun pxy =>
      (expectChar '\n' pxy.2.2).map fun r3 =>
        (Event.mouseMove ⟨pxy.1, pxy.2.1⟩, r3)
  else none

/-- Modelled from the spec: parse the sequence of [[events]] blocks of the
stored text format (the fuel bounds the number of blocks; the entry point
supplies the text's length, which the proofs show is always enough). -/
def parseEventsAux : Nat → List Char → Option (List Event)
  | _, [] => some []
  | 0, _ :: _ => none
  | fuel + 1, c :: cs =>
    (dropLit eventsMarker (c :: cs)).bind fun r1 =>
      (parseOneEvent r1).bind fun pe =>
        (parseEventsAux fuel pe.2).map fun es => pe.1 :: es

def parseEvents (cs : List Char) : Option (List Event) :=
  parseEventsAux cs.length cs

/-- Modelled from the spec: load's deserialization of a stored macro text
(the external toml crate's from_str on the schema {description, events});
fails (Corrupt) when the text does not fit the schema. -/
def parseMacroText (cs : List Char) : Option MacroData :=
  (dropLit descLit cs).bind fun r1 =>
    (scanString r1).bind fun pd =>
      (expectChar '\n' pd.2).bind fun r3 =>
        (parseEvents r3).map fun evs => ⟨String.mk pd.1, evs⟩

/-- Charwise mismatch of a pattern and an input within their overlap: a
sufficient, rest-independent reason why the pattern cannot start at this
input position. -/
def headMismatch : List Char → List Char → Bool
  | p :: ps, c :: cs => if p = c then headMismatch ps cs else true
  | _, _ => false

/-- Every nonempty suffix of the segment disagrees with the pattern
within the segment itself, so no occurrence of the pattern can start
inside the segment, whatever follows it. -/
def suffixSafe (pat : List Char) : List Char → Bool
  | [] => true
  | c :: cs => headMismatch pat (c :: cs) && suffixSafe pat cs

/-- No occurrence of the pattern starts inside seg when rest follows. -/
def noOccur (pat seg rest : List Char) : Prop :=
  ∀ x y : List Char, seg = x ++ y → y ≠ [] → startsWith pat (y ++ rest) = false

/-- One block of the stop tail: a stop-key press followed by the events
interleaved after it (releases, waits, and so on). -/
def stopBloc (p : Key × List Event) : List Event :=
  Event.keyPress p.1 :: p.2

/-- The reversal of one stop-tail block, as the backward walk meets it. -/
def blocRev (p : Key × List Event) : List Event :=
  p.2.reverse ++ [Event.keyPress p.1]

theorem trimRev_suffix (l : List Event) (toPop : List Key) :
    trimRev l toPop <:+ l := by
  induction l generalizing toPop with
  | nil => simp [trimRev]
  | cons e rest ih =>
    cases e with
    | keyPress k =>
      simp only [trimRev]
      split
      · split
        · exact List.suffix_cons _ _
        · exact (ih _).trans (List.suffix_cons _ _)
      · exact (ih _).trans (List.suffix_cons _ _)
    | keyRelease k => exact (ih _).trans (List.suffix_cons _ _)
    | mousePress m => exact (ih _).trans (List.suffix_cons _ _)
    | mouseRelease m => exact (ih _).trans (List.suffix_cons _ _)
    | mouseMove m => exact (ih _).trans (List.suffix_cons _ _)
    | wait ms => exact (ih _).trans (List.suffix_cons _ _)

theorem trimRev_skip (u : List Event) (toPop : List Key) (rest : List Event)
    (hu : ∀ e ∈ u, ∀ k, e = Event.keyPress k → toPop.getLast? ≠ some k) :
    trimRev (u ++ rest) toPop = trimRev rest toPop := by
  induction u with
  | nil => rfl
  | cons e u ih =>
    have he := hu e (by simp)
    have hrest : ∀ e ∈ u, ∀ k, e = Event.keyPress k → toPop.getLast? ≠ some k :=
      fun e he k hk => hu e (by simp [he]) k hk
    cases e with
    | keyPress k =>
      have : ¬ toPop.getLast? = some k := he k rfl
      simp only [List.cons_append, trimRev, if_neg this]
      exact ih hrest
    | keyRelease k => simpa only [List.cons_append, trimRev] using ih hrest
    | mousePress m => simpa only [List.cons_append, trimRev] using ih hrest
    | mouseRelease m => simpa only [List.cons_append, trimRev] using ih hrest
    | mouseMove m => simpa only [List.cons_append, trimRev] using ih hrest
    | wait ms => simpa only [List.cons_append, trimRev] using ih hrest

theorem trimRev_blocks (rp : List (Key × List Event)) (restRev : List Event)
    (hne : rp ≠ [])
    (hgood : ∀ p ∈ rp, ∀ e ∈ p.2, e ≠ Event.keyPress p.1) :
    trimRev ((rp.map blocRev).flatten ++ restRev) ((rp.map Prod.fst).reverse)
      = restRev := by
  induction rp with
  | nil => exact absurd rfl hne
  | cons p rps ih =>
    obtain ⟨k, w⟩ := p
    have hgood1 : ∀ e ∈ w, e ≠ Event.keyPress k := hgood (k, w) (by simp)
    have hgoodr : ∀ p ∈ rps, ∀ e ∈ p.2, e ≠ Event.keyPress p.1 :=
      fun p hp => hgood p (by simp [hp])
    have hlast : (((k, w) :: rps).map Prod.fst).reverse.getLast? = some k := by
      simp only [List.map_cons, List.reverse_cons]
      exact List.getLast?_concat ..
    -- the walk first skips the reversed interleaved events of the last block
    have hskip : trimRev
        ((((k, w) :: rps).map blocRev).flatten ++ restRev)
        ((((k, w) :: rps).map Prod.fst).reverse)
        = trimRev (Event.keyPress k ::
            ((rps.map blocRev).flatten ++ restRev))
            ((((k, w) :: rps).map Prod.fst).reverse) := by
      have := trimRev_skip w.reverse ((((k, w) :: rps).map Prod.fst).reverse)
        (Event.keyPress k :: ((rps.map blocRev).flatten ++ restRev))
        (by
          intro e he k' hk'
          rw [hlast]
          intro hsome
          have : k = k' := by injection hsome
          subst this
          exact hgood1 e (List.mem_reverse.mp he) hk')
      simpa [blocRev, List.append_assoc] using this
    rw [hskip]
    simp only [trimRev, hlast, if_pos rfl]
    by_cases hrps : rps = []
    · subst hrps
      simp
    · have hlen : (((k, w) :: rps).map Prod.fst).reverse.length ≠ 1 := by
        simp only [List.length_reverse, List.length_map, List.length_cons]
        have : rps.length ≠ 0 := fun h => hrps (List.length_eq_zero.mp h)
        omega
      rw [if_neg hlen]
      have hdrop : (((k, w) :: rps).map Prod.fst).reverse.dropLast
          = (rps.map Prod.fst).reverse := by
        simp only [List.map_cons, List.reverse_cons]
        exact List.dropLast_concat ..
      rw [hdrop]
      exact ih hrps hgoodr

/-- C1: when the recorded event list ends with the configured stop key
presses - a tail KeyPress(a) followed by one block per stop key, each
block being the stop-key press and then any interleaved events that do
not press that same stop key again - the backward walk pops events from
the tail, matching stop-key presses from the tail of stop_keystrokes
toward its head, stops once all stop keys are matched, and the persisted
macro retains KeyPress(a) and every event before it while omitting the
trailing stop-key presses and everything interleaved among them. -/
theorem trim_removes_stop_tail (stop : List Key)
    (pairs : List (Key × List Event)) (pre : List Event) (a : Key)
    (hstop : stop ≠ [])
    (hfst : pairs.map Prod.fst = stop)
    (hgood : ∀ p ∈ pairs, ∀ e ∈ p.2, e ≠ Event.keyPress p.1) :
    trimStopSuffix
      ((pre ++ [Event.keyPress a]) ++ (pairs.map stopBloc).flatten) stop
      = pre ++ [Event.keyPress a] := by
  have hpairs : pairs ≠ [] := by
    intro h
    exact hstop (by simpa [h] using hfst.symm)
  have hrevblocks :
      ((pre ++ [Event.keyPress a]) ++ (pairs.map stopBloc).flatten).reverse
        = (pairs.reverse.map blocRev).flatten ++ (pre ++ [Event.keyPress a]).reverse := by
    rw [List.reverse_append, List.reverse_flatten]
    congr 1
    rw [List.map_map, List.map_reverse]
    congr 1
    congr 1
    apply List.map_congr_left
    intro p _
    simp [stopBloc, blocRev, Function.comp]
  have hstopform : stop = (pairs.reverse.map Prod.fst).reverse := by
    rw [List.map_reverse, List.reverse_reverse, hfst]
  rw [trimStopSuffix, hrevblocks, hstopform]
  rw [trimRev_blocks pairs.reverse (pre ++ [Event.keyPress a]).reverse
    (by simpa using hpairs)
    (fun p hp => hgood p (List.mem_reverse.mp hp))]
  exact List.reverse_reverse _

/-- Witness for C1 at the spec's example: stop keystrokes Esc,Esc,Esc and
a recorded tail KeyPress(A) - KeyPress(Esc) KeyRelease(Esc) Wait -
KeyPress(Esc) KeyRelease(Esc) - KeyPress(Esc); the persisted macro keeps
the initial Wait and KeyPress(A) only. -/
theorem trim_removes_stop_tail_witness :
    trimStopSuffix
      [Event.wait 100, Event.keyPress Key.keyA,
       Event.keyPress Key.escape, Event.keyRelease Key.escape, Event.wait 7,
       Event.keyPress Key.escape, Event.keyRelease Key.escape,
       Event.keyPress Key.escape]
      [Key.escape, Key.escape, Key.escape]
      = [Event.wait 100, Event.keyPress Key.keyA] := by
  have h := trim_removes_stop_tail [Key.escape, Key.escape, Key.escape]
    [(Key.escape, [Event.keyRelease Key.escape, Event.wait 7]),
     (Key.escape, [Event.keyRelease Key.escape]),
     (Key.escape, [])]
    [Event.wait 100] Key.keyA
    (by decide) (by decide) (by decide)
  simpa [stopBloc] using h

theorem foldRecord_constantMS (cfg : Config) (ms : Nat)
    (hw : cfg.waitStrategy = WaitStrategy.constantMS ms) :
    ∀ (raws : List (Nat × RawEvent)) (st : RecState),
      (raws.foldl (recordStep cfg) st).events
        = st.events ++
          ((opStream cfg.recordNonDragMouseMoves st.mousePos st.mousePressed
              (raws.map Prod.snd)).map (fun e => [Event.wait ms, e])).flatten := by
  intro raws
  induction raws with
  | nil => intro st; simp [opStream]
  | cons tr rest ih =>
    intro st
    obtain ⟨t, raw⟩ := tr
    cases raw with
    | keyPress k =>
      simp only [List.foldl_cons, List.map_cons, opStream]
      rw [show recordStep cfg st (t, RawEvent.keyPress k)
            = { st with recentKeys := st.recentKeys ++ [k],
                        events := st.events ++ [Event.wait ms, Event.keyPress k] } by
            simp [recordStep, rawOpEvent, hw]]
      rw [ih]
      simp [List.append_assoc]
    | keyRelease k =>
      simp only [List.foldl_cons, List.map_cons, opStream]
      rw [show recordStep cfg st (t, RawEvent.keyRelease k)
            = { st with events := st.events ++ [Event.wait ms, Event.keyRelease k] } by
            simp [recordStep, rawOpEvent, hw]]
      rw [ih]
      simp [List.append_assoc]
    | buttonPress b =>
      simp only [List.foldl_cons, List.map_cons, opStream]
      rw [show recordStep cfg st (t, RawEvent.buttonPress b)
            = { st with recentKeys := [], mousePressed := true,
                        events := st.events ++ [Event.wait ms,
                          Event.mousePress ⟨st.mousePos.1, st.mousePos.2, b⟩] } by
            simp [recordStep, rawOpEvent, hw]]
      rw [ih]
      simp [List.append_assoc]
    | buttonRelease b =>
      simp only [List.foldl_cons, List.map_cons, opStream]
      rw [show recordStep cfg st (t, RawEvent.buttonRelease b)
            = { st with recentKeys := [], mousePressed := false,
                        events := st.events ++ [Event.wait ms,
                          Event.mouseRelease ⟨st.mousePos.1, st.mousePos.2, b⟩] } by
            simp [recordStep, rawOpEvent, hw]]
      rw [ih]
      simp [List.append_assoc]
    | mouseMove x y =>
      simp only [List.foldl_cons, List.map_cons, opStream]
      by_cases hrec : (cfg.recordNonDragMouseMoves || st.mousePressed) = true
      · rw [show recordStep cfg st (t, RawEvent.mouseMove x y)
              = { st with mousePos := (x, y), recentKeys := [],
                          events := st.events ++ [Event.wait ms,
                            Event.mouseMove ⟨x, y⟩] } by
              simp [recordStep, rawOpEvent, hw, hrec]]
        rw [ih]
        simp [hrec, List.append_assoc]
      · rw [show recordStep cfg st (t, RawEvent.mouseMove x y)
              = { st with mousePos := (x, y), recentKeys := [] } by
              simp [recordStep, rawOpEvent, hw, hrec]]
        rw [ih]
        simp [hrec]
    | wheel =>
      simp only [List.foldl_cons, List.map_cons, opStream]
      rw [show recordStep cfg st (t, RawEvent.wheel) = st by
            simp [recordStep, rawOpEvent]]
      exact ih st

theorem foldRecord_actual (cfg : Config)
    (hw : cfg.waitStrategy = WaitStrategy.actual) :
    ∀ (raws : List (Nat × RawEvent)) (st : RecState),
      (raws.foldl (recordStep cfg) st).events
        = st.events ++ actualTail st.lastEventTime
            (opStreamT cfg.recordNonDragMouseMoves st.mousePos st.mousePressed raws)
    := by
  intro raws
  induction raws with
  | nil => intro st; simp [opStreamT, actualTail]
  | cons tr rest ih =>
    intro st
    obtain ⟨t, raw⟩ := tr
    cases raw with
    | keyPress k =>
      simp only [List.foldl_cons, opStreamT]
      cases hlet : st.lastEventTime with
      | none =>
        rw [show recordStep cfg st (t, RawEvent.keyPress k)
              = { st with recentKeys := st.recentKeys ++ [k],
                          lastEventTime := some t,
                          events := st.events ++ [Event.keyPress k] } by
              simp [recordStep, rawOpEvent, hw, hlet]]
        rw [ih]
        simp [actualTail, List.append_assoc]
      | some prev =>
        rw [show recordStep cfg st (t, RawEvent.keyPress k)
              = { st with recentKeys := st.recentKeys ++ [k],
                          lastEventTime := some t,
                          events := st.events ++ [Event.wait (t - prev), Event.keyPress k] } by
              simp [recordStep, rawOpEvent, hw, hlet]]
        rw [ih]
        simp [actualTail, List.append_assoc]
    | keyRelease k =>
      simp only [List.foldl_cons, opStreamT]
      cases hlet : st.lastEventTime with
      | none =>
        rw [show recordStep cfg st (t, RawEvent.keyRelease k)
              = { st with lastEventTime := some t,
                          events := st.events ++ [Event.keyRelease k] } by
              simp [recordStep, rawOpEvent, hw, hlet]]
        rw [ih]
        simp [actualTail, List.append_assoc]
      | some prev =>
        rw [show recordStep cfg st (t, RawEvent.keyRelease k)
              = { st with lastEventTime := some t,
                          events := st.events ++ [Event.wait (t - prev), Event.keyRelease k] } by
              simp [recordStep, rawOpEvent, hw, hlet]]
        rw [ih]
        simp [actualTail, List.append_assoc]
    | buttonPress b =>
      simp only [List.foldl_cons, opStreamT]
      cases hlet : st.lastEventTime with
      | none =>
        rw [show recordStep cfg st (t, RawEvent.buttonPress b)
              = { st with recentKeys := [], mousePressed := true,
                          lastEventTime := some t,
                          events := st.events ++
                            [Event.mousePress ⟨st.mousePos.1, st.mousePos.2, b⟩] } by
              simp [recordStep, rawOpEvent, hw, hlet]]
        rw [ih]
        simp [actualTail, List.append_assoc]
      | some prev =>
        rw [show recordStep cfg st (t, RawEvent.buttonPress b)
              = { st with recentKeys := [], mousePressed := true,
                          lastEventTime := some t,
                          events := st.events ++ [Event.wait (t - prev),
                            Event.mousePress ⟨st.mousePos.1, st.mousePos.2, b⟩] } by
              simp [recordStep, rawOpEvent, hw, hlet]]
        rw [ih]
        simp [actualTail, List.append_assoc]
    | buttonRelease b =>
      simp only [List.foldl_cons, opStreamT]
      cases hlet : st.lastEventTime with
      | none =>
        rw [show recordStep cfg st (t, RawEvent.buttonRelease b)
              = { st with recentKeys := [], mousePressed := false,
                          lastEventTime := some t,
                          events := st.events ++
                            [Event.mouseRelease ⟨st.mousePos.1, st.mousePos.2, b⟩] } by
              simp [recordStep, rawOpEvent, hw, hlet]]
        rw [ih]
        simp [actualTail, List.append_assoc]
      | some prev =>
        rw [show recordStep cfg st (t, RawEvent.buttonRelease b)
              = { st with recentKeys := [], mousePressed := false,
                          lastEventTime := some t,
                          events := st.events ++ [Event.wait (t - prev),
                            Event.mouseRelease ⟨st.mousePos.1, st.mousePos.2, b⟩] } by
              simp [recordStep, rawOpEvent, hw, hlet]]
        rw [ih]
        simp [actualTail, List.append_assoc]
    | mouseMove x y =>
      simp only [List.foldl_cons, opStreamT]
      by_cases hrec : (cfg.recordNonDragMouseMoves || st.mousePressed) = true
      · cases hlet : st.lastEventTime with
        | none =>
          rw [show recordStep cfg st (t, RawEvent.mouseMove x y)
                = { st with mousePos := (x, y), recentKeys := [],
                            lastEventTime := some t,
                            events := st.events ++ [Event.mouseMove ⟨x, y⟩] } by
                simp [recordStep, rawOpEvent, hw, hrec, hlet]]
          rw [ih]
          simp [hrec, actualTail, List.append_assoc]
        | some prev =>
          rw [show recordStep cfg st (t, RawEvent.mouseMove x y)
                = { st with mousePos := (x, y), recentKeys := [],
                            lastEventTime := some t,
                            events := st.events ++ [Event.wait (t - prev),
                              Event.mouseMove ⟨x, y⟩] } by
                simp [recordStep, rawOpEvent, hw, hrec, hlet]]
          rw [ih]
          simp [hrec, actualTail, List.append_assoc]
      · rw [show recordStep cfg st (t, RawEvent.mouseMove x y)
              = { st with mousePos := (x, y), recentKeys := [] } by
              simp [recordStep, rawOpEvent, hw, hrec]]
        rw [ih]
        simp [hrec]
    | wheel =>
      simp only [List.foldl_cons, opStreamT]
      rw [show recordStep cfg st (t, RawEvent.wheel) = st by
            simp [recordStep, rawOpEvent]]
      exact ih st

/-- C2: a Wait(recording_initial_wait_ms) is unconditionally prepended
before capture starts; ConstantMS(ms) synthesizes a fixed Wait(ms) before
every recorded event; Actual synthesizes Wait(now - previous_event_time)
only for recorded events after the first; and with ConstantMS(100) and
recording_initial_wait_ms = 100, capturing KeyPress(A) then KeyRelease(A)
yields exactly [Wait 100, Wait 100, KeyPress A, Wait 100, KeyRelease A]. -/
theorem record_wait_synthesis :
    (∀ (cfg : Config) (pos : Int × Int),
        (initState cfg pos).events = [Event.wait cfg.recordingInitialWaitMs])
  ∧ (∀ (cfg : Config) (ms : Nat), cfg.waitStrategy = WaitStrategy.constantMS ms →
      ∀ (raws : List (Nat × RawEvent)) (st : RecState),
        (raws.foldl (recordStep cfg) st).events
          = st.events ++
            ((opStream cfg.recordNonDragMouseMoves st.mousePos st.mousePressed
                (raws.map Prod.snd)).map (fun e => [Event.wait ms, e])).flatten)
  ∧ (∀ (cfg : Config), cfg.waitStrategy = WaitStrategy.actual →
      ∀ (raws : List (Nat × RawEvent)) (st : RecState),
        (raws.foldl (recordStep cfg) st).events
          = st.events ++ actualTail st.lastEventTime
              (opStreamT cfg.recordNonDragMouseMoves st.mousePos st.mousePressed raws))
  ∧ runRecord defaultConfig (initState defaultConfig (0, 0))
      [(100, RawEvent.keyPress Key.keyA), (200, RawEvent.keyRelease Key.keyA)]
      = Sum.inl ⟨[Event.wait 100, Event.wait 100, Event.keyPress Key.keyA,
                  Event.wait 100, Event.keyRelease Key.keyA],
                 [Key.keyA], (0, 0), false, none⟩ := by
  refine ⟨fun cfg pos => rfl, foldRecord_constantMS, foldRecord_actual, ?_⟩
  decide

/-- Witness for C2: the ConstantMS clause applied to the spec's example
input reproduces the claimed event list. -/
theorem record_wait_synthesis_witness :
    ([((100 : Nat), RawEvent.keyPress Key.keyA),
      ((200 : Nat), RawEvent.keyRelease Key.keyA)].foldl
        (recordStep defaultConfig) (initState defaultConfig (0, 0))).events
      = [Event.wait 100, Event.wait 100, Event.keyPress Key.keyA,
         Event.wait 100, Event.keyRelease Key.keyA] := by
  rw [record_wait_synthesis.2.1 defaultConfig 100 rfl]
  decide

theorem countMatches_nil (s : EventSelector) : countMatches s [] = 0 := rfl

theorem countMatches_cons (s : EventSelector) (e : Event) (l : List Event) :
    countMatches s (e :: l)
      = (if matchesSelector e s then 1 else 0) + countMatches s l := by
  by_cases hm : matchesSelector e s = true
  · simp [countMatches, List.filter_cons, hm, Nat.add_comm]
  · simp [countMatches, List.filter_cons, hm]

theorem countMatches_take_succ_cons (s : EventSelector) (e : Event)
    (l : List Event) (n : Nat) :
    countMatches s ((e :: l).take (n + 1))
      = (if matchesSelector e s then 1 else 0) + countMatches s (l.take n) := by
  rw [List.take_succ_cons, countMatches_cons]

theorem countMatches_take_le (s : EventSelector) (l : List Event) (n : Nat) :
    countMatches s (l.take n) ≤ countMatches s l :=
  List.Sublist.length_le ((List.take_sublist n l).filter _)

theorem findAux_none_of_le (sel : ActionSelector) :
    ∀ (l : List Event) (idx seen : Nat), sel.ordinal ≤ seen →
      findEventIndexAux sel l idx seen = none := by
  intro l
  induction l with
  | nil => intro idx seen _; rfl
  | cons e l' ih =>
    intro idx seen h
    by_cases hm : matchesSelector e sel.selector = true
    · have hne : ¬ (seen + 1 = sel.ordinal) := by omega
      simp [findEventIndexAux, hm, hne, ih (idx + 1) (seen + 1) (by omega)]
    · simp [findEventIndexAux, hm, ih (idx + 1) seen h]

theorem findAux_some_iff (sel : ActionSelector) :
    ∀ (l : List Event) (idx seen : Nat), seen < sel.ordinal → ∀ (r : Nat),
      (findEventIndexAux sel l idx seen = some r ↔
        ∃ j, r = idx + j ∧ j < l.length ∧
          countMatches sel.selector (l.take (j + 1)) = sel.ordinal - seen ∧
          ∀ j' < j, countMatches sel.selector (l.take (j' + 1)) < sel.ordinal - seen) := by
  intro l
  induction l with
  | nil =>
    intro idx seen _ r
    constructor
    · intro h; cases h
    · rintro ⟨j, -, hj, -, -⟩
      exact absurd hj (by simp)
  | cons e l' ih =>
    intro idx seen hseen r
    by_cases hm : matchesSelector e sel.selector = true
    · by_cases hord : seen + 1 = sel.ordinal
      · have hLHS : findEventIndexAux sel (e :: l') idx seen = some idx := by
          simp [findEventIndexAux, hm, hord]
        rw [hLHS]
        constructor
        · intro h
          have hr : r = idx := by injection h with h; exact h.symm
          subst hr
          refine ⟨0, by omega, by simp, ?_, by omega⟩
          have h1 := countMatches_take_succ_cons sel.selector e l' 0
          rw [if_pos hm] at h1
          simp only [List.take_zero, countMatches_nil] at h1
          omega
        · rintro ⟨j, hr, hj, hcm, hfirst⟩
          cases j with
          | zero => simp [hr]
          | succ j =>
            exfalso
            have h0 := hfirst 0 (by omega)
            have h1 := countMatches_take_succ_cons sel.selector e l' 0
            rw [if_pos hm] at h1
            simp only [List.take_zero, countMatches_nil] at h1
            omega
      · have hseen1 : seen + 1 < sel.ordinal := by omega
        have hLHS : findEventIndexAux sel (e :: l') idx seen
            = findEventIndexAux sel l' (idx + 1) (seen + 1) := by
          simp [findEventIndexAux, hm, hord]
        rw [hLHS, ih (idx + 1) (seen + 1) hseen1 r]
        constructor
        · rintro ⟨j, hr, hj, hcm, hfirst⟩
          refine ⟨j + 1, by omega, by simp only [List.length_cons]; omega, ?_, ?_⟩
          · have h1 := countMatches_take_succ_cons sel.selector e l' (j + 1)
            rw [if_pos hm] at h1
            omega
          · intro j' hj'
            cases j' with
            | zero =>
              have h1 := countMatches_take_succ_cons sel.selector e l' 0
              rw [if_pos hm] at h1
              simp only [List.take_zero, countMatches_nil] at h1
              omega
            | succ j'' =>
              have hlt := hfirst j'' (by omega)
              have h1 := countMatches_take_succ_cons sel.selector e l' (j'' + 1)
              rw [if_pos hm] at h1
              omega
        · rintro ⟨j, hr, hj, hcm, hfirst⟩
          cases j with
          | zero =>
            exfalso
            have h1 := countMatches_take_succ_cons sel.selector e l' 0
            rw [if_pos hm] at h1
            simp only [List.take_zero, countMatches_nil] at h1
            omega
          | succ j =>
            refine ⟨j, by omega, by simp only [List.length_cons] at hj; omega, ?_, ?_⟩
            · have h1 := countMatches_take_succ_cons sel.selector e l' (j + 1)
              rw [if_pos hm] at h1
              omega
            · intro j' hj'
              have hlt := hfirst (j' + 1) (by omega)
              have h1 := countMatches_take_succ_cons sel.selector e l' (j' + 1)
              rw [if_pos hm] at h1
              omega
    · have hLHS : findEventIndexAux sel (e :: l') idx seen
          = findEventIndexAux sel l' (idx + 1) seen := by
        simp [findEventIndexAux, hm]
      rw [hLHS, ih (idx + 1) seen hseen r]
      constructor
      · rintro ⟨j, hr, hj, hcm, hfirst⟩
        refine ⟨j + 1, by omega, by simp only [List.length_cons]; omega, ?_, ?_⟩
        · have h1 := countMatches_take_succ_cons sel.selector e l' (j + 1)
          rw [if_neg hm] at h1
          omega
        · intro j' hj'
          cases j' with
          | zero =>
            have h1 := countMatches_take_succ_cons sel.selector e l' 0
            rw [if_neg hm] at h1
            simp only [List.take_zero, countMatches_nil] at h1
            omega
          | succ j'' =>
            have hlt := hfirst j'' (by omega)
            have h1 := countMatches_take_succ_cons sel.selector e l' (j'' + 1)
            rw [if_neg hm] at h1
            omega
      · rintro ⟨j, hr, hj, hcm, hfirst⟩
        cases j with
        | zero =>
          exfalso
          have h1 := countMatches_take_succ_cons sel.selector e l' 0
          rw [if_neg hm] at h1
          simp only [List.take_zero, countMatches_nil] at h1
          omega
        | succ j =>
          refine ⟨j, by omega, by simp only [List.length_cons] at hj; omega, ?_, ?_⟩
          · have h1 := countMatches_take_succ_cons sel.selector e l' (j + 1)
            rw [if_neg hm] at h1
            omega
          · intro j' hj'
            have hlt := hfirst (j' + 1) (by omega)
            have h1 := countMatches_take_succ_cons sel.selector e l' (j' + 1)
            rw [if_neg hm] at h1
            omega

/-- C4: resolution scans the events in order, counting the events that
match the selector's kind (and detail, case-insensitively when present),
and resolves to the event at which the counter first equals the ordinal;
exhausting the list without reaching the ordinal yields no index, and in
the full Run pipeline that is the unresolved failure, distinct from a
parse failure; the spec's example resolves to index 2. -/
theorem selector_resolution_counts :
    (∀ (events : List Event) (sel : ActionSelector) (i : Nat),
       findEventIndex events sel = some i ↔
         (1 ≤ sel.ordinal ∧ i < events.length ∧
          countMatches sel.selector (events.take (i + 1)) = sel.ordinal ∧
          ∀ j < i, countMatches sel.selector (events.take (j + 1)) < sel.ordinal))
  ∧ (∀ (events : List Event) (sel : ActionSelector),
       countMatches sel.selector events < sel.ordinal →
       findEventIndex events sel = none)
  ∧ (∀ (raw : String) (sel : ActionSelector) (events : List Event),
       parseAction raw = .ok sel → 1 ≤ sel.ordinal →
       findEventIndex events sel = none →
       resolveAction raw events = .error .unresolved)
  ∧ findEventIndex
      [Event.mousePress ⟨0, 0, .left⟩, Event.mouseRelease ⟨0, 0, .left⟩,
       Event.mousePress ⟨5, 5, .left⟩, Event.mouseRelease ⟨5, 5, .left⟩]
      ⟨.mousePress (some "Left"), 2⟩ = some 2 := by
  have hchar : ∀ (events : List Event) (sel : ActionSelector) (i : Nat),
      findEventIndex events sel = some i ↔
        (1 ≤ sel.ordinal ∧ i < events.length ∧
         countMatches sel.selector (events.take (i + 1)) = sel.ordinal ∧
         ∀ j < i, countMatches sel.selector (events.take (j + 1)) < sel.ordinal) := by
    intro events sel i
    by_cases hord : 1 ≤ sel.ordinal
    · rw [findEventIndex, findAux_some_iff sel events 0 0 (by omega) i]
      constructor
      · rintro ⟨j, hr, hj, hcm, hfirst⟩
        have : i = j := by omega
        subst this
        exact ⟨hord, hj, by omega, fun j' hj' => by have := hfirst j' hj'; omega⟩
      · rintro ⟨-, hi, hcm, hfirst⟩
        exact ⟨i, by omega, hi, by omega, fun j' hj' => by have := hfirst j' hj'; omega⟩
    · rw [findEventIndex, findAux_none_of_le sel events 0 0 (by omega)]
      constructor
      · intro h; cases h
      · rintro ⟨h1, -⟩; omega
  refine ⟨hchar, ?_, ?_, by decide⟩
  · intro events sel hlt
    cases hfind : findEventIndex events sel with
    | none => rfl
    | some i =>
      exfalso
      obtain ⟨-, -, hcm, -⟩ := (hchar events sel i).mp hfind
      have := countMatches_take_le sel.selector events (i + 1)
      omega
  · intro raw sel events hparse hord hfind
    have hne : ¬ (sel.ordinal = 0) := by omega
    simp [resolveAction, hparse, hne, hfind]

/-- Witness for C4: the characterization applied at the spec's example
input - mouse_press.Left ordinal 2 over press/release at (0,0) then
press/release at (5,5) - certifies index 2 as the first point where the
match counter reaches 2. -/
theorem selector_resolution_counts_witness :
    1 ≤ (2 : Nat) ∧ (2 : Nat) < 4 ∧
    countMatches (EventSelector.mousePress (some "Left"))
      ([Event.mousePress ⟨0, 0, .left⟩, Event.mouseRelease ⟨0, 0, .left⟩,
        Event.mousePress ⟨5, 5, .left⟩, Event.mouseRelease ⟨5, 5, .left⟩].take 3) = 2 ∧
    ∀ j < 2, countMatches (EventSelector.mousePress (some "Left"))
      ([Event.mousePress ⟨0, 0, .left⟩, Event.mouseRelease ⟨0, 0, .left⟩,
        Event.mousePress ⟨5, 5, .left⟩, Event.mouseRelease ⟨5, 5, .left⟩].take (j + 1)) < 2 := by
  have h := (selector_resolution_counts.1
    [Event.mousePress ⟨0, 0, .left⟩, Event.mouseRelease ⟨0, 0, .left⟩,
     Event.mousePress ⟨5, 5, .left⟩, Event.mouseRelease ⟨5, 5, .left⟩]
    ⟨.mousePress (some "Left"), 2⟩ 2).mp (by decide)
  simpa using h

theorem matchesSelector_wait_eq_false (s : EventSelector)
    (h : selectorIsWait s = false) (w : Nat) :
    matchesSelector (Event.wait w) s = false := by
  cases s with
  | wait => simp [selectorIsWait] at h
  | mousePress ob => rfl
  | mouseRelease ob => rfl
  | mouseMove => rfl
  | keyPress ok => rfl
  | keyRelease ok => rfl

theorem findAux_shift (sel : ActionSelector) :
    ∀ (l : List Event) (idx seen : Nat),
      findEventIndexAux sel l idx seen
        = (findEventIndexAux sel l 0 seen).map (· + idx) := by
  intro l
  induction l with
  | nil => intro idx seen; rfl
  | cons e l ih =>
    intro idx seen
    by_cases hm : matchesSelector e sel.selector = true
    · by_cases hord : seen + 1 = sel.ordinal
      · simp [findEventIndexAux, hm, hord]
      · rw [show findEventIndexAux sel (e :: l) idx seen
              = findEventIndexAux sel l (idx + 1) (seen + 1) by
            simp [findEventIndexAux, hm, hord]]
        rw [show findEventIndexAux sel (e :: l) 0 seen
              = findEventIndexAux sel l 1 (seen + 1) by
            simp [findEventIndexAux, hm, hord]]
        rw [ih (idx + 1) (seen + 1), ih 1 (seen + 1)]
        cases findEventIndexAux sel l 0 (seen + 1) with
        | none => rfl
        | some a => simp; omega
    · rw [show findEventIndexAux sel (e :: l) idx seen
            = findEventIndexAux sel l (idx + 1) seen by
          simp [findEventIndexAux, hm]]
      rw [show findEventIndexAux sel (e :: l) 0 seen
            = findEventIndexAux sel l 1 seen by
          simp [findEventIndexAux, hm]]
      rw [ih (idx + 1) seen, ih 1 seen]
      cases findEventIndexAux sel l 0 seen with
      | none => rfl
      | some a => simp; omega

theorem find_prepend_wait (sel : ActionSelector)
    (h : selectorIsWait sel.selector = false) (w : Nat) (events : List Event) :
    findEventIndex (Event.wait w :: events) sel
      = (findEventIndex events sel).map (· + 1) := by
  have hm := matchesSelector_wait_eq_false sel.selector h w
  rw [findEventIndex, findEventIndex]
  rw [show findEventIndexAux sel (Event.wait w :: events) 0 0
        = findEventIndexAux sel events 1 0 by simp [findEventIndexAux, hm]]
  exact findAux_shift sel events 1 0

theorem resolvedEvent_prepend_wait (sel : ActionSelector)
    (h : selectorIsWait sel.selector = false) (w : Nat) (events : List Event) :
    resolvedEvent (Event.wait w :: events) sel = resolvedEvent events sel := by
  rw [resolvedEvent, resolvedEvent, find_prepend_wait sel h w]
  cases findEventIndex events sel with
  | none => rfl
  | some i => simp

/-- C8: when a run is addressed by an action selector, the resolved event
is handed to simulate exactly once for one repetition - the simulated
trace is the single resolved event, so none of the Wait events recorded
before it are replayed; moreover, for every non-wait selector the
resolved event is unchanged by Wait events preceding it in the
recording. -/
theorem single_action_trace :
    (∀ (events : List Event) (raw : String) (i : Nat),
       resolveAction raw events = .ok i →
       ∃ ev, events.get? i = some ev ∧ runActionTrace events raw 1 = .ok [ev])
  ∧ (∀ (sel : ActionSelector), selectorIsWait sel.selector = false →
       ∀ (ws : List Nat) (events : List Event),
         resolvedEvent (ws.map Event.wait ++ events) sel
           = resolvedEvent events sel) := by
  constructor
  · intro events raw i h
    unfold resolveAction at h
    cases hp : parseAction raw with
    | error e => rw [hp] at h; cases h
    | ok sel =>
      rw [hp] at h
      dsimp only at h
      by_cases hz : sel.ordinal = 0
      · rw [if_pos hz] at h; cases h
      · rw [if_neg hz] at h
        cases hf : findEventIndex events sel with
        | none => rw [hf] at h; cases h
        | some i' =>
          rw [hf] at h
          injection h with h
          subst h
          obtain ⟨j, hj0, hjlen, -, -⟩ :=
            (findAux_some_iff sel events 0 0 (by omega) i').mp hf
          have hilt : i' < events.length := by omega
          have hget : events.get? i' = some (events.get ⟨i', hilt⟩) :=
            List.get?_eq_get hilt
          refine ⟨events.get ⟨i', hilt⟩, hget, ?_⟩
          have hres : resolveAction raw events = .ok i' := by
            unfold resolveAction
            rw [hp]
            dsimp only
            rw [if_neg hz, hf]
          unfold runActionTrace
          rw [hres]
          dsimp only
          rw [hget]
          rfl
  · intro sel h ws events
    induction ws with
    | nil => rfl
    | cons w ws ih =>
      rw [List.map_cons, List.cons_append, resolvedEvent_prepend_wait sel h, ih]

/-- Witness for C8: selector key_press:1 over [Wait 5, KeyPress A]
resolves past the leading Wait and the single-run trace is exactly the
one resolved KeyPress. -/
theorem single_action_trace_witness :
    runActionTrace [Event.wait 5, Event.keyPress Key.keyA] "key_press:1" 1
      = .ok [Event.keyPress Key.keyA] := by
  obtain ⟨ev, h1, h2⟩ := single_action_trace.1
    [Event.wait 5, Event.keyPress Key.keyA] "key_press:1" 1 (by decide)
  have hev : ev = Event.keyPress Key.keyA := by
    simp [List.get?] at h1
    exact h1.symm
  rw [hev] at h2
  exact h2

theorem collapseLoop_unfold (events : List Event) (press : MouseEventButton)
    (idx w t : Nat) :
    collapseLoop events press idx w t =
      match events.get? idx with
      | some (.wait ms) => collapseLoop events press (idx + 1) (w + 1) (t + ms)
      | some (.mouseRelease rel) =>
        if isSameClick press rel then
          some ⟨idx, w, t, press.button, press.x, press.y⟩
        else none
      | some _ => none
      | none => none := by
  rw [collapseLoop]
  split
  · rename_i heq
    rw [heq]
  · rename_i heq
    rw [heq]
  · rename_i v hv1 hv2 heq
    rw [heq]
    cases v with
    | wait ms => exact absurd rfl (hv1 ms)
    | mouseRelease rel => exact absurd rfl (hv2 rel)
    | keyPress k => rfl
    | keyRelease k => rfl
    | mousePress m => rfl
    | mouseMove m => rfl
  · rename_i heq
    rw [heq]

theorem collapseLoop_some_iff (events : List Event) (press : MouseEventButton) :
    ∀ (n j w t : Nat), events.length - j = n → ∀ (c : ClickCollapse),
      (collapseLoop events press j w t = some c ↔
        ∃ (ws : List Nat) (rel : MouseEventButton) (rest : List Event),
          events.drop j = ws.map Event.wait ++ Event.mouseRelease rel :: rest
          ∧ isSameClick press rel = true
          ∧ c = ⟨j + ws.length, w + ws.length, t + ws.sum,
                 press.button, press.x, press.y⟩) := by
  intro n
  induction n with
  | zero =>
    intro j w t hn c
    have hj : events.length ≤ j := by omega
    have hget : events.get? j = none := List.get?_eq_none.mpr hj
    rw [collapseLoop_unfold, hget]
    constructor
    · intro h; cases h
    · rintro ⟨ws, rel, rest, hdrop, -, -⟩
      rw [List.drop_eq_nil_of_le hj] at hdrop
      cases ws <;> simp at hdrop
  | succ m ih =>
    intro j w t hn c
    have hj : j < events.length := by omega
    cases hget : events.get? j with
    | none =>
      exact absurd (List.get?_eq_none.mp hget) (by omega)
    | some ev =>
      obtain ⟨hlt, hgeteq⟩ := List.get?_eq_some.mp hget
      have hdropj : events.drop j = ev :: events.drop (j + 1) := by
        rw [List.drop_eq_get_cons hlt, hgeteq]
      cases ev with
      | wait ms =>
        rw [collapseLoop_unfold, hget]
        dsimp only
        rw [ih (j + 1) (w + 1) (t + ms) (by omega) c]
        constructor
        · rintro ⟨ws, rel, rest, hdrop, hsame, hc⟩
          refine ⟨ms :: ws, rel, rest, ?_, hsame, ?_⟩
          · rw [hdropj, hdrop]
            simp
          · rw [hc]
            simp only [List.length_cons, List.sum_cons, ClickCollapse.mk.injEq,
              and_true, true_and]
            omega
        · rintro ⟨ws, rel, rest, hdrop, hsame, hc⟩
          rw [hdropj] at hdrop
          cases ws with
          | nil => simp at hdrop
          | cons ms' ws' =>
            simp only [List.map_cons, List.cons_append, List.cons.injEq,
              Event.wait.injEq] at hdrop
            obtain ⟨hms, hdrop'⟩ := hdrop
            subst hms
            refine ⟨ws', rel, rest, hdrop', hsame, ?_⟩
            rw [hc]
            simp only [List.length_cons, List.sum_cons, ClickCollapse.mk.injEq,
              and_true, true_and]
            omega
      | mouseRelease rel0 =>
        rw [collapseLoop_unfold, hget]
        dsimp only
        by_cases hsame0 : isSameClick press rel0 = true
        · rw [if_pos hsame0]
          constructor
          · intro h
            injection h with h
            refine ⟨[], rel0, events.drop (j + 1), by simpa using hdropj, hsame0, ?_⟩
            rw [← h]
            simp
          · rintro ⟨ws, rel, rest, hdrop, hsame, hc⟩
            rw [hdropj] at hdrop
            cases ws with
            | nil =>
              simp only [List.map_nil, List.nil_append, List.cons.injEq,
                Event.mouseRelease.injEq] at hdrop
              obtain ⟨hrel, -⟩ := hdrop
              subst hrel
              rw [hc]
              simp
            | cons ms' ws' => simp at hdrop
        · rw [if_neg hsame0]
          constructor
          · intro h; cases h
          · rintro ⟨ws, rel, rest, hdrop, hsame, -⟩
            rw [hdropj] at hdrop
            cases ws with
            | nil =>
              simp only [List.map_nil, List.nil_append, List.cons.injEq,
                Event.mouseRelease.injEq] at hdrop
              obtain ⟨hrel, -⟩ := hdrop
              subst hrel
              exact absurd hsame hsame0
            | cons ms' ws' => simp at hdrop
      | keyPress k =>
        rw [collapseLoop_unfold, hget]
        dsimp only
        constructor
        · intro h; cases h
        · rintro ⟨ws, rel, rest, hdrop, -, -⟩
          rw [hdropj] at hdrop
          cases ws <;> simp at hdrop
      | keyRelease k =>
        rw [collapseLoop_unfold, hget]
        dsimp only
        constructor
        · intro h; cases h
        · rintro ⟨ws, rel, rest, hdrop, -, -⟩
          rw [hdropj] at hdrop
          cases ws <;> simp at hdrop
      | mousePress m =>
        rw [collapseLoop_unfold, hget]
        dsimp only
        constructor
        · intro h; cases h
        · rintro ⟨ws, rel, rest, hdrop, -, -⟩
          rw [hdropj] at hdrop
          cases ws <;> simp at hdrop
      | mouseMove m =>
        rw [collapseLoop_unfold, hget]
        dsimp only
        constructor
        · intro h; cases h
        · rintro ⟨ws, rel, rest, hdrop, -, -⟩
          rw [hdropj] at hdrop
          cases ws <;> simp at hdrop

theorem get?_of_drop_eq (events : List Event) (i : Nat) (x : Event)
    (l : List Event) (h : events.drop i = x :: l) :
    events.get? i = some x := by
  have h0 : events.get? i = (events.drop i).get? 0 := by
    rw [List.get?_drop, Nat.add_zero]
  rw [h0, h]
  rfl

/-- C6: click collapse triggers iff the MousePress is followed, after zero
or more Wait events, by a MouseRelease with identical button and identical
coordinates - and then reports the release index, the consumed waits and
their total; on any mismatch the collapse fails and the Show loop renders
the press as a plain event and advances the cursor by one, reconsidering
the following events individually. -/
theorem click_collapse_iff :
    (∀ (events : List Event) (i : Nat) (c : ClickCollapse),
       tryCollapseClick events i = some c ↔
         ∃ (press : MouseEventButton) (ws : List Nat) (rel : MouseEventButton)
           (rest : List Event),
           events.drop i = Event.mousePress press ::
             (ws.map Event.wait ++ Event.mouseRelease rel :: rest)
           ∧ isSameClick press rel = true
           ∧ c = ⟨i + 1 + ws.length, ws.length, ws.sum,
                  press.button, press.x, press.y⟩)
  ∧ (∀ (stat all : Bool) (m : MouseEventButton) (rest : List Event) (st : ShowState),
       tryCollapseClick (Event.mousePress m :: rest) 0 = none →
       showLoopAux stat all (Event.mousePress m :: rest) st
         = showLoopAux stat all rest (plainStep stat st (Event.mousePress m))) := by
  constructor
  · intro events i c
    rw [tryCollapseClick]
    cases hget : events.get? i with
    | none =>
      constructor
      · intro h; cases h
      · rintro ⟨press, ws, rel, rest, hdrop, -, -⟩
        have := get?_of_drop_eq events i _ _ hdrop
        rw [hget] at this
        cases this
    | some ev =>
      cases ev with
      | mousePress press0 =>
        dsimp only
        rw [collapseLoop_some_iff events press0 (events.length - (i + 1))
          (i + 1) 0 0 rfl c]
        obtain ⟨hlt, hgeteq⟩ := List.get?_eq_some.mp hget
        have hdropj : events.drop i
            = Event.mousePress press0 :: events.drop (i + 1) := by
          rw [List.drop_eq_get_cons hlt, hgeteq]
        constructor
        · rintro ⟨ws, rel, rest, hdrop, hsame, hc⟩
          refine ⟨press0, ws, rel, rest, by rw [hdropj, hdrop], hsame, ?_⟩
          rw [hc]
          simp
        · rintro ⟨press, ws, rel, rest, hdrop, hsame, hc⟩
          rw [hdropj] at hdrop
          simp only [List.cons.injEq, Event.mousePress.injEq] at hdrop
          obtain ⟨hpress, hdrop'⟩ := hdrop
          subst hpress
          refine ⟨ws, rel, rest, hdrop', hsame, ?_⟩
          rw [hc]
          simp
      | wait ms =>
        constructor
        · intro h; cases h
        · rintro ⟨press, ws, rel, rest, hdrop, -, -⟩
          have := get?_of_drop_eq events i _ _ hdrop
          rw [hget] at this
          cases this
      | keyPress k =>
        constructor
        · intro h; cases h
        · rintro ⟨press, ws, rel, rest, hdrop, -, -⟩
          have := get?_of_drop_eq events i _ _ hdrop
          rw [hget] at this
          cases this
      | keyRelease k =>
        constructor
        · intro h; cases h
        · rintro ⟨press, ws, rel, rest, hdrop, -, -⟩
          have := get?_of_drop_eq events i _ _ hdrop
          rw [hget] at this
          cases this
      | mouseRelease m =>
        constructor
        · intro h; cases h
        · rintro ⟨press, ws, rel, rest, hdrop, -, -⟩
          have := get?_of_drop_eq events i _ _ hdrop
          rw [hget] at this
          cases this
      | mouseMove m =>
        constructor
        · intro h; cases h
        · rintro ⟨press, ws, rel, rest, hdrop, -, -⟩
          have := get?_of_drop_eq events i _ _ hdrop
          rw [hget] at this
          cases this
  · intro stat all m rest st h
    rw [showLoopAux]
    simp [isWaitEvent, isMousePressEvent, h]

/-- Witness for C6: press at (3,4), two waits, then a matching release
collapses to release index 3 with 2 waits totalling 30 ms; obtained by
applying the characterization. -/
theorem click_collapse_iff_witness :
    tryCollapseClick
      [Event.mousePress ⟨3, 4, .left⟩, Event.wait 10, Event.wait 20,
       Event.mouseRelease ⟨3, 4, .left⟩, Event.keyPress Key.keyA] 0
      = some ⟨3, 2, 30, .left, 3, 4⟩ := by
  refine (click_collapse_iff.1
    [Event.mousePress ⟨3, 4, .left⟩, Event.wait 10, Event.wait 20,
     Event.mouseRelease ⟨3, 4, .left⟩, Event.keyPress Key.keyA] 0
    ⟨3, 2, 30, .left, 3, 4⟩).mpr
    ⟨⟨3, 4, .left⟩, [10, 20], ⟨3, 4, .left⟩, [Event.keyPress Key.keyA],
     by decide, by decide, by decide⟩

theorem statExample_state :
    showLoopAux true false
      [Event.mousePress ⟨0, 0, .left⟩, Event.wait 40,
       Event.mouseRelease ⟨0, 0, .left⟩,
       Event.keyPress Key.keyA, Event.keyPress Key.keyB] ⟨0, [], []⟩
      = ⟨3, [("click.Left", 1), ("key_press.KeyA", 1), ("key_press.KeyB", 1)], []⟩ := by
  simp [showLoopAux, tryCollapseClick, collapseLoop_unfold, isSameClick, isWaitEvent,
    isMousePressEvent, clickStep, plainStep, bump, statLabel, keyName, buttonName,
    List.get?]

/-- C7 counterexample: a macro of one left click (press, wait, matching
release) plus key presses of the A and B keys does not produce the stat
lines key_press.A: 1 and key_press.B: 1 claimed by the spec - the program
builds the labels from the keys' Debug names (KeyA, KeyB). -/
theorem stat_lines_counterexample :
    showOutput
      [Event.mousePress ⟨0, 0, .left⟩, Event.wait 40,
       Event.mouseRelease ⟨0, 0, .left⟩,
       Event.keyPress Key.keyA, Event.keyPress Key.keyB] true false
      ≠ ["click.Left: 1", "key_press.A: 1", "key_press.B: 1"] := by
  simp only [showOutput]
  rw [statExample_state]
  decide

/-- C7 (amended): one left click plus key presses of the A and B keys in
statistics mode produces exactly the lines click.Left: 1,
key_press.KeyA: 1, key_press.KeyB: 1 - the key labels carry the keys'
canonical Debug names - sorted lexicographically by label, with no
itemized listing. -/
theorem stat_lines_debug_names :
    showOutput
      [Event.mousePress ⟨0, 0, .left⟩, Event.wait 40,
       Event.mouseRelease ⟨0, 0, .left⟩,
       Event.keyPress Key.keyA, Event.keyPress Key.keyB] true false
      = ["click.Left: 1", "key_press.KeyA: 1", "key_press.KeyB: 1"] := by
  simp only [showOutput]
  rw [statExample_state]
  decide

theorem splitOnChar_ne_nil (sep : Char) (l : List Char) :
    splitOnChar sep l ≠ [] := by
  induction l with
  | nil => simp [splitOnChar]
  | cons c cs ih =>
    by_cases hc : c = sep
    · simp [splitOnChar, hc]
    · simp only [splitOnChar, if_neg hc]
      cases hs : splitOnChar sep cs with
      | nil => simp
      | cons h t => simp

theorem splitOnChar_no_sep (sep : Char) :
    ∀ (a : List Char), (∀ c ∈ a, ¬ c = sep) → splitOnChar sep a = [a] := by
  intro a
  induction a with
  | nil => intro _; rfl
  | cons c cs ih =>
    intro h
    have hc : ¬ c = sep := h c (by simp)
    have hcs := ih (fun x hx => h x (by simp [hx]))
    simp only [splitOnChar, if_neg hc, hcs]

theorem splitOnChar_append_sep (sep : Char) :
    ∀ (a b : List Char), (∀ c ∈ a, ¬ c = sep) →
      splitOnChar sep (a ++ sep :: b) = a :: splitOnChar sep b := by
  intro a
  induction a with
  | nil =>
    intro b _
    simp [splitOnChar]
  | cons c cs ih =>
    intro b h
    have hc : ¬ c = sep := h c (by simp)
    have hcs := ih b (fun x hx => h x (by simp [hx]))
    simp only [List.cons_append, splitOnChar, if_neg hc, List.append_eq, hcs]

theorem digitChar_isDigit : ∀ d, d < 10 → isDigitChar (digitChar d) = true := by decide

theorem digitChar_val : ∀ d, d < 10 → (digitChar d).toNat - 48 = d := by decide

theorem natToCharsAux_digits :
    ∀ (fuel n : Nat), n < fuel → ∀ c ∈ natToCharsAux fuel n, isDigitChar c = true := by
  intro fuel
  induction fuel with
  | zero => intro n h; omega
  | succ f ih =>
    intro n h c hc
    by_cases h10 : n < 10
    · simp only [natToCharsAux, if_pos h10, List.mem_singleton] at hc
      subst hc
      exact digitChar_isDigit n h10
    · simp only [natToCharsAux, if_neg h10, List.mem_append, List.mem_singleton] at hc
      have hdiv : n / 10 < f := by
        have := Nat.div_lt_self (show 0 < n by omega) (show 1 < 10 by omega)
        omega
      rcases hc with hmem | hc
      · exact ih (n / 10) hdiv c hmem
      · subst hc
        exact digitChar_isDigit (n % 10) (Nat.mod_lt _ (by omega))

theorem natToCharsAux_foldl :
    ∀ (fuel n a : Nat), n < fuel →
      List.foldl (fun acc c => acc * 10 + (c.toNat - 48)) a (natToCharsAux fuel n)
        = a * 10 ^ (natToCharsAux fuel n).length + n := by
  intro fuel
  induction fuel with
  | zero => intro n a h; omega
  | succ f ih =>
    intro n a h
    by_cases h10 : n < 10
    · simp only [natToCharsAux, if_pos h10, List.foldl_cons, List.foldl_nil,
        List.length_singleton, pow_one]
      rw [digitChar_val n h10]
    · have hdiv : n / 10 < f := by
        have := Nat.div_lt_self (show 0 < n by omega) (show 1 < 10 by omega)
        omega
      simp only [natToCharsAux, if_neg h10, List.foldl_append, List.foldl_cons,
        List.foldl_nil, List.length_append, List.length_singleton]
      rw [ih (n / 10) a hdiv, digitChar_val (n % 10) (Nat.mod_lt _ (by omega)),
        pow_succ, ← Nat.mul_assoc]
      omega

theorem natToCharsAux_ne_nil :
    ∀ (fuel n : Nat), n < fuel → natToCharsAux fuel n ≠ [] := by
  intro fuel
  induction fuel with
  | zero => intro n h; omega
  | succ f ih =>
    intro n h
    by_cases h10 : n < 10
    · simp [natToCharsAux, if_pos h10]
    · simp [natToCharsAux, if_neg h10]

theorem natToChars_digits (n : Nat) : ∀ c ∈ natToChars n, isDigitChar c = true :=
  natToCharsAux_digits (n + 1) n (by omega)

theorem digitsToNat_natToChars (n : Nat) : digitsToNat (natToChars n) = n := by
  have h := natToCharsAux_foldl (n + 1) n 0 (by omega)
  simpa [digitsToNat, natToChars] using h

theorem natToChars_ne_nil (n : Nat) : natToChars n ≠ [] :=
  natToCharsAux_ne_nil (n + 1) n (by omega)

theorem extractDigits_natToChars (n : Nat) :
    extractDigits (natToChars n) = natToChars n :=
  List.filter_eq_self.mpr (natToChars_digits n)

theorem parseUsize_natToChars (n : Nat) (h : n ≤ usizeMax) :
    parseUsize (natToChars n) = some n := by
  rw [parseUsize, if_neg (natToChars_ne_nil n), digitsToNat_natToChars,
    if_neg (by omega)]

theorem isDigitChar_ne_sep (c : Char) (h : isDigitChar c = true) :
    ¬ c = ':' ∧ ¬ c = '.' := by
  refine ⟨fun he => ?_, fun he => ?_⟩ <;>
    (subst he; exact absurd h (by decide))

theorem parseAction_detail_eq (k d : String) (n : Nat)
    (hk : ∀ c ∈ k.data, ¬ c = ':' ∧ ¬ c = '.')
    (hd : ∀ c ∈ d.data, ¬ c = ':' ∧ ¬ c = '.')
    (hn : n ≤ usizeMax) :
    parseAction (String.mk (k.data ++ '.' :: d.data ++ ':' :: natToChars n))
      = mkSelector k (some d) n := by
  rw [parseAction]
  dsimp only
  have hassoc : k.data ++ '.' :: d.data ++ ':' :: natToChars n
      = (k.data ++ '.' :: d.data) ++ ':' :: natToChars n := by
    simp
  rw [hassoc, splitOnChar_append_sep ':' (k.data ++ '.' :: d.data) (natToChars n)
    (by
      intro c hc
      rcases List.mem_append.mp hc with h1 | h1
      · exact (hk c h1).1
      · rcases List.mem_cons.mp h1 with h2 | h2
        · subst h2; decide
        · exact (hd c h2).1)]
  rw [splitOnChar_no_sep ':' (natToChars n)
    (fun c hc => (isDigitChar_ne_sep c (natToChars_digits n c hc)).1)]
  dsimp only
  rw [extractDigits_natToChars, parseUsize_natToChars n hn]
  dsimp only
  rw [splitOnChar_append_sep '.' k.data d.data (fun c hc => (hk c hc).2)]
  rw [splitOnChar_no_sep '.' d.data (fun c hc => (hd c hc).2)]

theorem parseAction_plain_eq (k : String) (n : Nat)
    (hk : ∀ c ∈ k.data, ¬ c = ':' ∧ ¬ c = '.')
    (hn : n ≤ usizeMax) :
    parseAction (String.mk (k.data ++ ':' :: natToChars n)) = mkSelector k none n := by
  rw [parseAction]
  dsimp only
  rw [splitOnChar_append_sep ':' k.data (natToChars n) (fun c hc => (hk c hc).1)]
  rw [splitOnChar_no_sep ':' (natToChars n)
    (fun c hc => (isDigitChar_ne_sep c (natToChars_digits n c hc)).1)]
  dsimp only
  rw [extractDigits_natToChars, parseUsize_natToChars n hn]
  dsimp only
  rw [splitOnChar_no_sep '.' k.data (fun c hc => (hk c hc).2)]

theorem parseAction_missing_colon (l : List Char) (h : ∀ c ∈ l, ¬ c = ':') :
    parseAction (String.mk l) = .error "missing ordinal after ':'" := by
  rw [parseAction]
  dsimp only
  rw [splitOnChar_no_sep ':' l h]

theorem parseAction_two_colons (a b c : List Char)
    (ha : ∀ x ∈ a, ¬ x = ':') (hb : ∀ x ∈ b, ¬ x = ':') :
    parseAction (String.mk (a ++ ':' :: (b ++ ':' :: c)))
      = .error "too many ':' segments" := by
  rw [parseAction]
  dsimp only
  rw [splitOnChar_append_sep ':' a (b ++ ':' :: c) ha,
    splitOnChar_append_sep ':' b c hb]
  cases hs : splitOnChar ':' c with
  | nil => exact absurd hs (splitOnChar_ne_nil ':' c)
  | cons hh tt => rfl

theorem parseUsize_eq_none (ord : List Char)
    (hbad : extractDigits ord = [] ∨ usizeMax < digitsToNat (extractDigits ord)) :
    parseUsize (extractDigits ord) = none := by
  by_cases hnil : extractDigits ord = []
  · rw [parseUsize, if_pos hnil]
  · rcases hbad with h | h
    · exact absurd h hnil
    · rw [parseUsize, if_neg hnil, if_pos (by omega)]

theorem parseAction_bad_ordinal (hd ord : List Char)
    (hh : ∀ c ∈ hd, ¬ c = ':') (ho : ∀ c ∈ ord, ¬ c = ':')
    (hbad : extractDigits ord = [] ∨ usizeMax < digitsToNat (extractDigits ord)) :
    parseAction (String.mk (hd ++ ':' :: ord)) = .error "ordinal is not a number" := by
  rw [parseAction]
  dsimp only
  rw [splitOnChar_append_sep ':' hd ord hh, splitOnChar_no_sep ':' ord ho]
  dsimp only
  rw [parseUsize_eq_none ord hbad]

theorem parseAction_many_dots (k d1 d2 : List Char) (n : Nat)
    (hk : ∀ c ∈ k, ¬ c = ':' ∧ ¬ c = '.')
    (h1 : ∀ c ∈ d1, ¬ c = ':' ∧ ¬ c = '.')
    (h2 : ∀ c ∈ d2, ¬ c = ':' ∧ ¬ c = '.')
    (hn : n ≤ usizeMax) :
    parseAction (String.mk ((k ++ '.' :: (d1 ++ '.' :: d2)) ++ ':' :: natToChars n))
      = .error "too many '.' segments" := by
  rw [parseAction]
  dsimp only
  rw [splitOnChar_append_sep ':' (k ++ '.' :: (d1 ++ '.' :: d2)) (natToChars n)
    (by
      intro c hc
      rcases List.mem_append.mp hc with hm | hm
      · exact (hk c hm).1
      · rcases List.mem_cons.mp hm with hm2 | hm2
        · subst hm2; decide
        · rcases List.mem_append.mp hm2 with hm3 | hm3
          · exact (h1 c hm3).1
          · rcases List.mem_cons.mp hm3 with hm4 | hm4
            · subst hm4; decide
            · exact (h2 c hm4).1)]
  rw [splitOnChar_no_sep ':' (natToChars n)
    (fun c hc => (isDigitChar_ne_sep c (natToChars_digits n c hc)).1)]
  dsimp only
  rw [extractDigits_natToChars, parseUsize_natToChars n hn]
  dsimp only
  rw [splitOnChar_append_sep '.' k (d1 ++ '.' :: d2) (fun c hc => (hk c hc).2),
    splitOnChar_append_sep '.' d1 d2 (fun c hc => (h1 c hc).2)]
  cases hs : splitOnChar '.' d2 with
  | nil => exact absurd hs (splitOnChar_ne_nil '.' d2)
  | cons hh tt => rfl

/-- C5 counterexample: the syntactically well-formed address wait.foo:1
parses successfully but its detail is not recovered (the parsed wait
selector carries no detail at all), and the well-formed address
key_press.A:18446744073709551616 - whose ordinal exceeds usize - is
rejected with the ordinal parse reason; so "parsing recovers exactly
k, d, n for every well-formed address" fails as stated. -/
theorem parse_action_counterexample :
    (parseAction "wait.foo:1").map (fun s => (selectorDetail s.selector, s.ordinal))
      = .ok (none, 1)
    ∧ parseAction "key_press.A:18446744073709551616"
      = .error "ordinal is not a number" := by
  constructor
  · decide
  · decide

/-- C5 (amended): for addresses k[.d]:n whose segments are free of '.'
and ':' and whose ordinal is representable (n ≤ usize::MAX), parsing
recovers the kind and ordinal exactly, and the detail exactly for the
four detail-bearing kinds (mouse_press, mouse_release, key_press,
key_release), while wait and mouse_move accept a present detail and
discard it; unknown kind tokens, a missing ':', extra ':' or '.'
segments, an ordinal segment whose digits are absent or overflow, and
ordinal 0 are all rejected before resolution with a named reason. -/
theorem parse_action_amended :
    (∀ (k d : String) (n : Nat), (∀ c ∈ k.data, ¬ c = ':' ∧ ¬ c = '.') →
        (∀ c ∈ d.data, ¬ c = ':' ∧ ¬ c = '.') → n ≤ usizeMax →
        parseAction (String.mk (k.data ++ '.' :: d.data ++ ':' :: natToChars n))
          = mkSelector k (some d) n)
  ∧ (∀ (k : String) (n : Nat), (∀ c ∈ k.data, ¬ c = ':' ∧ ¬ c = '.') → n ≤ usizeMax →
        parseAction (String.mk (k.data ++ ':' :: natToChars n)) = mkSelector k none n)
  ∧ (∀ (detail : Option String) (n : Nat),
        mkSelector "mouse_press" detail n = .ok ⟨.mousePress detail, n⟩
      ∧ mkSelector "mouse_release" detail n = .ok ⟨.mouseRelease detail, n⟩
      ∧ mkSelector "key_press" detail n = .ok ⟨.keyPress detail, n⟩
      ∧ mkSelector "key_release" detail n = .ok ⟨.keyRelease detail, n⟩
      ∧ mkSelector "mouse_move" detail n = .ok ⟨.mouseMove, n⟩
      ∧ mkSelector "wait" detail n = .ok ⟨.wait, n⟩)
  ∧ (∀ (k : String) (detail : Option String) (n : Nat),
        k ≠ "mouse_press" → k ≠ "mouse_release" → k ≠ "mouse_move" → k ≠ "wait" →
        k ≠ "key_press" → k ≠ "key_release" →
        mkSelector k detail n = .error ("unsupported event kind: " ++ k))
  ∧ (∀ (l : List Char), (∀ c ∈ l, ¬ c = ':') →
        parseAction (String.mk l) = .error "missing ordinal after ':'")
  ∧ (∀ (a b c : List Char), (∀ x ∈ a, ¬ x = ':') → (∀ x ∈ b, ¬ x = ':') →
        parseAction (String.mk (a ++ ':' :: (b ++ ':' :: c)))
          = .error "too many ':' segments")
  ∧ (∀ (hd ord : List Char), (∀ c ∈ hd, ¬ c = ':') → (∀ c ∈ ord, ¬ c = ':') →
        (extractDigits ord = [] ∨ usizeMax < digitsToNat (extractDigits ord)) →
        parseAction (String.mk (hd ++ ':' :: ord)) = .error "ordinal is not a number")
  ∧ (∀ (k d1 d2 : List Char) (n : Nat),
        (∀ c ∈ k, ¬ c = ':' ∧ ¬ c = '.') → (∀ c ∈ d1, ¬ c = ':' ∧ ¬ c = '.') →
        (∀ c ∈ d2, ¬ c = ':' ∧ ¬ c = '.') → n ≤ usizeMax →
        parseAction (String.mk ((k ++ '.' :: (d1 ++ '.' :: d2)) ++ ':' :: natToChars n))
          = .error "too many '.' segments")
  ∧ (∀ (raw : String) (events : List Event) (sel : ActionSelector),
        parseAction raw = .ok sel → sel.ordinal = 0 →
        resolveAction raw events = .error RunActionError.ordinalZero) := by
  refine ⟨parseAction_detail_eq, parseAction_plain_eq, ?_, ?_,
    parseAction_missing_colon, parseAction_two_colons, parseAction_bad_ordinal,
    parseAction_many_dots, ?_⟩
  · intro detail n
    refine ⟨rfl, ?_, ?_, ?_, ?_, ?_⟩ <;> rfl
  · intro k detail n h1 h2 h3 h4 h5 h6
    rw [mkSelector, if_neg h1, if_neg h2, if_neg h3, if_neg h4, if_neg h5, if_neg h6]
  · intro raw events sel hp hz
    rw [resolveAction, hp]
    dsimp only
    rw [if_pos hz]

/-- Witness for C5: applying the detail-recovery clause at the concrete
address mouse_press.Left:2 recovers kind mouse_press, detail Left and
ordinal 2. -/
theorem parse_action_amended_witness :
    parseAction "mouse_press.Left:2"
      = .ok ⟨.mousePress (some "Left"), 2⟩ := by
  have h := parse_action_amended.1 "mouse_press" "Left" 2
    (by decide) (by decide) (by decide)
  have heq : String.mk ("mouse_press".data ++ '.' :: "Left".data ++ ':' :: natToChars 2)
      = "mouse_press.Left:2" := by decide
  rw [heq] at h
  rw [h]
  decide

/-- C10 counterexample: the ordinal segment 99999999999999999999999 is
all digits, yet parsing fails with the not-a-number reason because the
value overflows usize - so "fails only when the segment contains no
digit at all" is false as stated. -/
theorem ordinal_overflow_counterexample :
    parseAction "wait:99999999999999999999999" = .error "ordinal is not a number"
    ∧ '9' ∈ "99999999999999999999999".data ∧ isDigitChar '9' = true := by
  refine ⟨by decide, by decide, by decide⟩

/-- C10 (amended): ordinal parsing drops every non-digit character of the
segment after ':' - wherever it occurs - concatenates the remaining
digits and parses them (so 1a2 yields ordinal 12), succeeding exactly
when at least one digit is present and the value fits in usize, and
failing with the not-a-number reason when the segment has no digit or
its digit value exceeds usize::MAX. -/
theorem ordinal_digits_amended :
    (∀ (ord : List Char), (∀ c ∈ ord, ¬ c = ':') →
       extractDigits ord ≠ [] → digitsToNat (extractDigits ord) ≤ usizeMax →
       parseAction (String.mk ("wait".data ++ ':' :: ord))
         = .ok ⟨.wait, digitsToNat (extractDigits ord)⟩)
  ∧ (∀ (ord : List Char), (∀ c ∈ ord, ¬ c = ':') →
       (extractDigits ord = [] ∨ usizeMax < digitsToNat (extractDigits ord)) →
       parseAction (String.mk ("wait".data ++ ':' :: ord))
         = .error "ordinal is not a number")
  ∧ parseAction "wait:1a2" = .ok ⟨.wait, 12⟩ := by
  refine ⟨?_, ?_, by decide⟩
  · intro ord ho hne hle
    rw [parseAction]
    dsimp only
    rw [splitOnChar_append_sep ':' "wait".data ord (by decide), splitOnChar_no_sep ':' ord ho]
    dsimp only
    rw [parseUsize, if_neg hne, if_neg (by omega)]
    dsimp only
    rw [splitOnChar_no_sep '.' "wait".data (by decide)]
    rfl
  · intro ord ho hbad
    exact parseAction_bad_ordinal "wait".data ord (by decide) ho hbad

/-- Witness for C10: applying the digit-concatenation clause at the
segment 1a2 yields ordinal 12 through the full parser. -/
theorem ordinal_digits_amended_witness :
    parseAction "wait:1a2" = .ok ⟨.wait, 12⟩ := by
  have h := ordinal_digits_amended.1 "1a2".data (by decide) (by decide) (by decide)
  have heq : String.mk ("wait".data ++ ':' :: "1a2".data) = "wait:1a2" := by decide
  rw [heq] at h
  rw [h]
  decide

theorem startsWith_refl_append : ∀ (p rest : List Char),
    startsWith p (p ++ rest) = true := by
  intro p
  induction p with
  | nil => intro rest; rfl
  | cons c cs ih => intro rest; simp [startsWith, ih]

theorem startsWith_length_le : ∀ (p u : List Char),
    startsWith p u = true → p.length ≤ u.length := by
  intro p
  induction p with
  | nil => intro u _; simp
  | cons c cs ih =>
    intro u h
    cases u with
    | nil => simp [startsWith] at h
    | cons d ds =>
      simp only [startsWith, Bool.and_eq_true] at h
      have := ih ds h.2
      simp only [List.length_cons]
      omega

theorem startsWith_mem : ∀ (p u : List Char),
    startsWith p u = true → ∀ c ∈ p, c ∈ u := by
  intro p
  induction p with
  | nil => intro u _ c hc; simp at hc
  | cons x ps ih =>
    intro u h c hc
    cases u with
    | nil => simp [startsWith] at h
    | cons d ds =>
      simp only [startsWith, Bool.and_eq_true, decide_eq_true_eq] at h
      rcases List.mem_cons.mp hc with hc | hc
      · subst hc
        rw [h.1]
        simp
      · exact List.mem_cons_of_mem d (ih ds h.2 c hc)

theorem startsWith_false_of_headMismatch : ∀ (p b rest : List Char),
    headMismatch p b = true → startsWith p (b ++ rest) = false := by
  intro p
  induction p with
  | nil => intro b rest h; cases b <;> simp [headMismatch] at h
  | cons x ps ih =>
    intro b rest h
    cases b with
    | nil => simp [headMismatch] at h
    | cons c cs =>
      by_cases hx : x = c
      · rw [headMismatch, if_pos hx] at h
        simp only [List.cons_append, List.append_eq, startsWith, ih cs rest h,
          Bool.and_false]
      · have hxc : decide (x = c) = false := by simp [hx]
        simp only [List.cons_append, startsWith, hxc, Bool.false_and]

theorem suffixSafe_spec (pat : List Char) :
    ∀ (seg : List Char), suffixSafe pat seg = true → ∀ (rest : List Char),
      noOccur pat seg rest := by
  intro seg
  induction seg with
  | nil =>
    intro _ rest x y hxy hy
    exact absurd (List.append_eq_nil.mp hxy.symm).2 hy
  | cons c cs ih =>
    intro hsafe rest x y hxy hy
    have hsafe' : headMismatch pat (c :: cs) = true ∧ suffixSafe pat cs = true := by
      rw [suffixSafe, Bool.and_eq_true] at hsafe
      exact hsafe
    cases x with
    | nil =>
      simp only [List.nil_append] at hxy
      subst hxy
      exact startsWith_false_of_headMismatch pat (c :: cs) rest hsafe'.1
    | cons a as =>
      simp only [List.cons_append, List.cons.injEq] at hxy
      exact ih hsafe'.2 rest as y hxy.2 hy

theorem startsWith_append_cases : ∀ (p u v : List Char),
    startsWith p (u ++ v) = true →
      startsWith p u = true ∨
      (u = p.take u.length ∧ u.length < p.length ∧
        startsWith (p.drop u.length) v = true) := by
  intro p u
  induction u generalizing p with
  | nil =>
    intro v h
    cases p with
    | nil => exact Or.inl rfl
    | cons d ds =>
      exact Or.inr ⟨rfl, by simp, h⟩
  | cons c cs ih =>
    intro v h
    cases p with
    | nil => exact Or.inl rfl
    | cons d ds =>
      simp only [List.cons_append, startsWith, Bool.and_eq_true,
        decide_eq_true_eq] at h
      rcases ih ds v h.2 with h1 | ⟨h1, h2, h3⟩
      · exact Or.inl (by simp [startsWith, h.1, h1])
      · refine Or.inr ⟨?_, ?_, ?_⟩
        · simp only [List.length_cons, List.take_succ_cons, ← h.1, ← h1]
        · simp only [List.length_cons]
          omega
        · simpa using h3

theorem noOccur_append (pat a b rest : List Char)
    (ha : noOccur pat a (b ++ rest)) (hb : noOccur pat b rest) :
    noOccur pat (a ++ b) rest := by
  intro x y hxy hy
  rcases List.append_eq_append_iff.mp hxy.symm with ⟨w, hw1, hw2⟩ | ⟨w, hw1, hw2⟩
  · -- a = x ++ w and y = w ++ b
    subst hw2
    cases w with
    | nil =>
      have hb' := hb [] b rfl (by simpa using hy)
      simpa using hb'
    | cons q qs =>
      have := ha x (q :: qs) hw1 (by simp)
      simpa [List.append_assoc] using this
  · -- x = a ++ w and b = w ++ y : y is a suffix of b
    exact hb w y hw2 hy

theorem replaceList_skip (p r : List Char) :
    ∀ (seg rest : List Char), noOccur p seg rest →
      replaceList p r (seg ++ rest) = seg ++ replaceList p r rest := by
  intro seg
  induction seg with
  | nil => intro rest _; simp
  | cons c cs ih =>
    intro rest hno
    have hfalse : startsWith p (c :: (cs ++ rest)) = false := by
      have := hno [] (c :: cs) rfl (by simp)
      simpa using this
    rw [List.cons_append, replaceList]
    rw [dif_neg (by
      intro hcon
      rw [hcon.2] at hfalse
      exact Bool.noConfusion hfalse)]
    rw [ih rest (by
      intro x y hxy hy
      exact hno (c :: x) y (by simp [hxy]) hy)]
    simp

theorem replaceList_at (p r rest : List Char) (hp : p ≠ []) :
    replaceList p r (p ++ rest) = r ++ replaceList p r rest := by
  cases hp2 : p with
  | nil => exact absurd hp2 hp
  | cons c cs =>
    rw [List.cons_append, replaceList]
    rw [dif_pos ⟨by simp, by
      rw [← List.cons_append, ← hp2]
      exact startsWith_refl_append p rest⟩]
    congr 1
    rw [show (c :: (cs ++ rest)) = (c :: cs) ++ rest from rfl]
    rw [show (c :: cs).length = p.length from by rw [hp2]]
    rw [show ((c : Char) :: cs : List Char) = p from hp2.symm]
    exact congrArg (replaceList p r) (List.drop_left p rest)

theorem noOccur_lit (lit : List Char) (h : suffixSafe eventsMarkerPre lit = true)
    (rest : List Char) : noOccur eventsMarkerPre lit rest :=
  suffixSafe_spec eventsMarkerPre lit h rest

theorem noOccur_no_bracket (seg rest : List Char) (h : ∀ c ∈ seg, ¬ c = '[') :
    noOccur eventsMarkerPre seg rest := by
  intro x y hxy hy
  cases y with
  | nil => exact absurd rfl hy
  | cons c ys =>
    have hc : ¬ c = '[' := h c (by rw [hxy]; simp)
    have hne : ('[' : Char) ≠ c := fun hcc => hc hcc.symm
    rw [show eventsMarkerPre = '[' :: "[events]]\n\n".data from rfl]
    simp [startsWith, hne]

theorem escapeString_no_newline (s : List Char) :
    ∀ c ∈ escapeString s, ¬ c = '\n' := by
  intro c hc
  rw [escapeString] at hc
  rcases List.mem_flatten.mp hc with ⟨l, hl, hcl⟩
  rcases List.mem_map.mp hl with ⟨a, -, rfl⟩
  rw [escapeChar] at hcl
  split_ifs at hcl with h1 h2 h3 h4 h5
  · simp at hcl; subst hcl; decide
  · simp at hcl; rcases hcl with rfl | rfl <;> decide
  · simp at hcl; rcases hcl with rfl | rfl <;> decide
  · simp at hcl; rcases hcl with rfl | rfl <;> decide
  · simp at hcl; rcases hcl with rfl | rfl <;> decide
  · simp at hcl; subst hcl; exact h3

theorem noOccur_desc (seg rest : List Char) (h : ∀ c ∈ seg, ¬ c = '\n') :
    noOccur eventsMarkerPre seg ('"' :: rest) := by
  intro x y hxy hy
  by_contra hcon
  have htrue : startsWith eventsMarkerPre (y ++ '"' :: rest) = true := by
    cases hsw : startsWith eventsMarkerPre (y ++ '"' :: rest)
    · exact absurd hsw hcon
    · rfl
  rcases startsWith_append_cases eventsMarkerPre y ('"' :: rest) htrue with
    h1 | ⟨h1, h2, h3⟩
  · have hn : ('\n' : Char) ∈ eventsMarkerPre := by decide
    have hy2 : ('\n' : Char) ∈ y := startsWith_mem _ _ h1 '\n' hn
    have hseg : ('\n' : Char) ∈ seg := by
      rw [hxy]
      exact List.mem_append.mpr (Or.inr hy2)
    exact (h '\n' hseg) rfl
  · cases hdrop : eventsMarkerPre.drop y.length with
    | nil =>
      have hlen := congrArg List.length hdrop
      rw [List.length_drop] at hlen
      simp at hlen
      omega
    | cons q qs =>
      rw [hdrop] at h3
      have hq : q = '"' := by
        simp only [startsWith, Bool.and_eq_true, decide_eq_true_eq] at h3
        exact h3.1
      have hqmem : q ∈ eventsMarkerPre :=
        List.drop_subset _ _ (by rw [hdrop]; simp)
      subst hq
      exact absurd hqmem (by decide)

theorem isDigitChar_not_bracket (c : Char) (h : isDigitChar c = true) :
    ¬ c = '[' := by
  intro he
  subst he
  exact absurd h (by decide)

theorem natToChars_no_bracket (n : Nat) : ∀ c ∈ natToChars n, ¬ c = '[' :=
  fun c hc => isDigitChar_not_bracket c (natToChars_digits n c hc)

theorem intToChars_no_bracket (i : Int) : ∀ c ∈ intToChars i, ¬ c = '[' := by
  intro c hc
  rw [intToChars] at hc
  split_ifs at hc
  · rcases List.mem_cons.mp hc with rfl | hc2
    · decide
    · exact natToChars_no_bracket _ c hc2
  · exact natToChars_no_bracket _ c hc

theorem keyName_plain (k : Key) :
    ∀ c ∈ (keyName k).data, ¬ c = '"' ∧ ¬ c = '\\' := by
  cases k <;> decide

theorem buttonName_plain (b : Button) :
    ∀ c ∈ (buttonName b).data, ¬ c = '"' ∧ ¬ c = '\\' := by
  cases b <;> decide

theorem keyName_no_bracket (k : Key) : ∀ c ∈ (keyName k).data, ¬ c = '[' := by
  cases k <;> decide

theorem buttonName_no_bracket (b : Button) :
    ∀ c ∈ (buttonName b).data, ¬ c = '[' := by
  cases b <;> decide

theorem nameToKey_keyName (k : Key) : nameToKey (keyName k) = some k := by
  cases k <;> rfl

theorem nameToButton_buttonName (b : Button) :
    nameToButton (buttonName b) = some b := by
  cases b <;> rfl

theorem fields_noOccur (e : Event) (rest : List Char) :
    noOccur eventsMarkerPre (eventFields e) rest := by
  cases e with
  | keyPress k =>
    rw [eventFields, List.append_assoc]
    exact noOccur_append _ _ _ _ (noOccur_lit kpLit (by decide) _)
      (noOccur_append _ _ _ _
        (noOccur_no_bracket _ _ (keyName_no_bracket k))
        (noOccur_lit closeQuoteNl (by decide) _))
  | keyRelease k =>
    rw [eventFields, List.append_assoc]
    exact noOccur_append _ _ _ _ (noOccur_lit krLit (by decide) _)
      (noOccur_append _ _ _ _
        (noOccur_no_bracket _ _ (keyName_no_bracket k))
        (noOccur_lit closeQuoteNl (by decide) _))
  | wait ms =>
    rw [eventFields, List.append_assoc]
    exact noOccur_append _ _ _ _ (noOccur_lit waitLit (by decide) _)
      (noOccur_append _ _ _ _
        (noOccur_no_bracket _ _ (natToChars_no_bracket ms))
        (noOccur_lit ['\n'] (by decide) _))
  | mousePress m =>
    rw [eventFields]
    simp only [List.append_assoc]
    exact noOccur_append _ _ _ _ (noOccur_lit mpLit (by decide) _)
      (noOccur_append _ _ _ _ (noOccur_no_bracket _ _ (intToChars_no_bracket m.x))
        (noOccur_append _ _ _ _ (noOccur_lit yLit (by decide) _)
          (noOccur_append _ _ _ _ (noOccur_no_bracket _ _ (intToChars_no_bracket m.y))
            (noOccur_append _ _ _ _ (noOccur_lit btnLit (by decide) _)
              (noOccur_append _ _ _ _
                (noOccur_no_bracket _ _ (buttonName_no_bracket m.button))
                (noOccur_lit closeQuoteNl (by decide) _))))))
  | mouseRelease m =>
    rw [eventFields]
    simp only [List.append_assoc]
    exact noOccur_append _ _ _ _ (noOccur_lit mrLit (by decide) _)
      (noOccur_append _ _ _ _ (noOccur_no_bracket _ _ (intToChars_no_bracket m.x))
        (noOccur_append _ _ _ _ (noOccur_lit yLit (by decide) _)
          (noOccur_append _ _ _ _ (noOccur_no_bracket _ _ (intToChars_no_bracket m.y))
            (noOccur_append _ _ _ _ (noOccur_lit btnLit (by decide) _)
              (noOccur_append _ _ _ _
                (noOccur_no_bracket _ _ (buttonName_no_bracket m.button))
                (noOccur_lit closeQuoteNl (by decide) _))))))
  | mouseMove m =>
    rw [eventFields]
    simp only [List.append_assoc]
    exact noOccur_append _ _ _ _ (noOccur_lit mmLit (by decide) _)
      (noOccur_append _ _ _ _ (noOccur_no_bracket _ _ (intToChars_no_bracket m.x))
        (noOccur_append _ _ _ _ (noOccur_lit yLit (by decide) _)
          (noOccur_append _ _ _ _ (noOccur_no_bracket _ _ (intToChars_no_bracket m.y))
            (noOccur_lit ['\n'] (by decide) _))))

theorem cosmetic_blocks (evs : List Event) :
    replaceList eventsMarkerPre eventsMarker
        ((evs.map (fun e => eventsMarkerPre ++ eventFields e)).flatten)
      = (evs.map (fun e => eventsMarker ++ eventFields e)).flatten := by
  induction evs with
  | nil =>
    simp only [List.map_nil, List.flatten_nil]
    rw [replaceList]
  | cons e evs ih =>
    simp only [List.map_cons, List.flatten_cons]
    rw [List.append_assoc, replaceList_at _ _ _ (by decide),
      replaceList_skip _ _ (eventFields e) _ (fields_noOccur e _), ih]
    simp [List.append_assoc]

theorem storedText_eq_post (m : MacroData) :
    storedText m = serializePostChars m := by
  rw [storedText, serializeChars, serializePostChars]
  simp only [List.append_assoc]
  rw [replaceList_skip _ _ descLit _ (noOccur_lit descLit (by decide) _)]
  rw [show closeQuoteNl
        ++ (List.map (fun e => eventsMarkerPre ++ eventFields e) m.events).flatten
      = '"' :: '\n'
        :: (List.map (fun e => eventsMarkerPre ++ eventFields e) m.events).flatten
      from rfl]
  rw [replaceList_skip _ _ (escapeString m.description.data) _
    (noOccur_desc _ _ (escapeString_no_newline m.description.data))]
  rw [show ('"' :: '\n'
        :: (List.map (fun e => eventsMarkerPre ++ eventFields e) m.events).flatten
        : List Char)
      = closeQuoteNl
        ++ (List.map (fun e => eventsMarkerPre ++ eventFields e) m.events).flatten
      from rfl]
  rw [replaceList_skip _ _ closeQuoteNl _ (noOccur_lit closeQuoteNl (by decide) _)]
  rw [cosmetic_blocks]

theorem takeWhile_all_append_stop (p : Char → Bool) :
    ∀ (xs : List Char) (y : Char) (rest : List Char),
      (∀ c ∈ xs, p c = true) → p y = false →
      (xs ++ y :: rest).takeWhile p = xs
        ∧ (xs ++ y :: rest).dropWhile p = y :: rest := by
  intro xs
  induction xs with
  | nil =>
    intro y rest _ hy
    simp [List.takeWhile_cons, List.dropWhile_cons, hy]
  | cons x xs ih =>
    intro y rest h hy
    have hx : p x = true := h x (by simp)
    have ihr := ih y rest (fun c hc => h c (by simp [hc])) hy
    simp [List.takeWhile_cons, List.dropWhile_cons, hx, ihr.1, ihr.2]

theorem parseNatChars_append (n : Nat) (rest : List Char) :
    parseNatChars (natToChars n ++ '\n' :: rest) = some (n, '\n' :: rest) := by
  have h := takeWhile_all_append_stop isDigitChar (natToChars n) '\n' rest
    (natToChars_digits n) (by decide)
  simp only [parseNatChars, h.1, h.2]
  rw [if_neg (natToChars_ne_nil n), digitsToNat_natToChars]

theorem parseIntChars_append (i : Int) (rest : List Char) :
    parseIntChars (intToChars i ++ '\n' :: rest) = some (i, '\n' :: rest) := by
  rw [intToChars]
  by_cases hneg : i < 0
  · rw [if_pos hneg]
    rw [show ('-' :: natToChars i.natAbs) ++ '\n' :: rest
        = '-' :: (natToChars i.natAbs ++ '\n' :: rest) from rfl]
    rw [parseIntChars, if_pos rfl, parseNatChars_append]
    have hi : (-(i.natAbs : Int)) = i := by omega
    dsimp only [Option.map]
    rw [hi]
  · rw [if_neg hneg]
    cases hnc : natToChars i.natAbs with
    | nil => exact absurd hnc (natToChars_ne_nil _)
    | cons c cs =>
      have hc : isDigitChar c = true := natToChars_digits _ c (by rw [hnc]; simp)
      have hcm : ¬ c = '-' := fun he => by
        subst he
        exact absurd hc (by decide)
      rw [List.cons_append, parseIntChars, if_neg hcm]
      rw [show (c :: (cs ++ '\n' :: rest)) = natToChars i.natAbs ++ '\n' :: rest from by
        rw [hnc]
        rfl]
      rw [parseNatChars_append]
      have hi : ((i.natAbs : Int)) = i := by omega
      dsimp only [Option.map]
      rw [hi]

theorem scanString_cons_esc (d : Char) (tail rest s : List Char)
    (htail : scanString tail = some (s, rest)) :
    scanString ('\\' :: d :: tail) = some (unescapeChar d :: s, rest) := by
  rw [scanString.eq_def]
  dsimp only
  rw [if_neg (by decide), if_pos rfl, htail]
  rfl

theorem scanString_cons_plain (c : Char) (tail rest s : List Char)
    (h1 : ¬ c = '"') (h2 : ¬ c = '\\')
    (htail : scanString tail = some (s, rest)) :
    scanString (c :: tail) = some (c :: s, rest) := by
  rw [scanString.eq_def]
  dsimp only
  rw [if_neg h1, if_neg h2, htail]
  rfl

theorem scanString_quote (rest : List Char) :
    scanString ('"' :: rest) = some ([], rest) := by
  rw [scanString.eq_def]
  dsimp only
  rw [if_pos rfl]

theorem scanString_plain : ∀ (s rest : List Char),
    (∀ c ∈ s, ¬ c = '"' ∧ ¬ c = '\\') →
    scanString (s ++ '"' :: rest) = some (s, rest) := by
  intro s
  induction s with
  | nil => intro rest _; rw [List.nil_append, scanString_quote]
  | cons c cs ih =>
    intro rest h
    rw [List.cons_append]
    exact scanString_cons_plain c _ rest cs (h c (by simp)).1 (h c (by simp)).2
      (ih rest (fun x hx => h x (by simp [hx])))

theorem scanString_escape : ∀ (s rest : List Char),
    scanString (escapeString s ++ '"' :: rest) = some (s, rest) := by
  intro s
  induction s with
  | nil =>
    intro rest
    rw [show escapeString [] = [] from rfl, List.nil_append, scanString_quote]
  | cons c cs ih =>
    intro rest
    have hes : escapeString (c :: cs) = escapeChar c ++ escapeString cs := by
      simp [escapeString]
    rw [hes, List.append_assoc]
    by_cases h1 : c = '\\'
    · subst h1
      rw [show (escapeChar '\\' : List Char)
          ++ (escapeString cs ++ '"' :: rest)
          = '\\' :: '\\' :: (escapeString cs ++ '"' :: rest) from rfl]
      rw [scanString_cons_esc '\\' _ rest cs (ih rest)]
      rfl
    · by_cases h2 : c = '"'
      · subst h2
        rw [show (escapeChar '"' : List Char)
            ++ (escapeString cs ++ '"' :: rest)
            = '\\' :: '"' :: (escapeString cs ++ '"' :: rest) from rfl]
        rw [scanString_cons_esc '"' _ rest cs (ih rest)]
        rfl
      · by_cases h3 : c = '\n'
        · subst h3
          rw [show (escapeChar '\n' : List Char)
              ++ (escapeString cs ++ '"' :: rest)
              = '\\' :: 'n' :: (escapeString cs ++ '"' :: rest) from rfl]
          rw [scanString_cons_esc 'n' _ rest cs (ih rest)]
          rfl
        · by_cases h4 : c = '\r'
          · subst h4
            rw [show (escapeChar '\r' : List Char)
                ++ (escapeString cs ++ '"' :: rest)
                = '\\' :: 'r' :: (escapeString cs ++ '"' :: rest) from rfl]
            rw [scanString_cons_esc 'r' _ rest cs (ih rest)]
            rfl
          · by_cases h5 : c = '\t'
            · subst h5
              rw [show (escapeChar '\t' : List Char)
                  ++ (escapeString cs ++ '"' :: rest)
                  = '\\' :: 't' :: (escapeString cs ++ '"' :: rest) from rfl]
              rw [scanString_cons_esc 't' _ rest cs (ih rest)]
              rfl
            · rw [show (escapeChar c : List Char)
                  ++ (escapeString cs ++ '"' :: rest)
                  = c :: (escapeString cs ++ '"' :: rest) from by
                rw [escapeChar, if_neg h1, if_neg h2, if_neg h3, if_neg h4, if_neg h5]
                rfl]
              exact scanString_cons_plain c _ rest cs h2 h1 (ih rest)

theorem dropLit_self (lit rest : List Char) : dropLit lit (lit ++ rest) = some rest := by
  rw [dropLit, if_pos (startsWith_refl_append lit rest), List.drop_left]

theorem expectChar_cons (c : Char) (rest : List Char) :
    expectChar c (c :: rest) = some rest := by
  rw [expectChar, if_pos rfl]

theorem parseXY_fields (x y : Int) (tail : List Char) :
    parseXY (intToChars x ++ (yLit ++ (intToChars y ++ '\n' :: tail)))
      = some (x, y, '\n' :: tail) := by
  rw [parseXY]
  rw [show yLit ++ (intToChars y ++ '\n' :: tail)
      = '\n' :: ("y = ".data ++ (intToChars y ++ '\n' :: tail)) from rfl]
  rw [parseIntChars_append]
  dsimp only [Option.bind]
  rw [show ('\n' :: ("y = ".data ++ (intToChars y ++ '\n' :: tail)))
      = yLit ++ (intToChars y ++ '\n' :: tail) from rfl]
  rw [dropLit_self]
  dsimp only [Option.bind]
  rw [parseIntChars_append]
  rfl

theorem parseOneEvent_fields (e : Event) (rest : List Char) :
    parseOneEvent (eventFields e ++ rest) = some (e, rest) := by
  cases e with
  | keyPress k =>
    rw [eventFields, List.append_assoc, List.append_assoc,
        show closeQuoteNl ++ rest = '"' :: '\n' :: rest from rfl]
    rw [parseOneEvent, if_pos (startsWith_refl_append kpLit _), List.drop_left]
    rw [scanString_plain (keyName k).data ('\n' :: rest) (keyName_plain k)]
    dsimp only [Option.bind]
    rw [expectChar_cons]
    dsimp only [Option.bind]
    rw [show String.mk (keyName k).data = keyName k from rfl, nameToKey_keyName]
    rfl
  | keyRelease k =>
    rw [eventFields, List.append_assoc, List.append_assoc,
        show closeQuoteNl ++ rest = '"' :: '\n' :: rest from rfl]
    rw [parseOneEvent,
        startsWith_false_of_headMismatch kpLit krLit _ (by decide),
        if_neg Bool.false_ne_true,
        if_pos (startsWith_refl_append krLit _), List.drop_left]
    rw [scanString_plain (keyName k).data ('\n' :: rest) (keyName_plain k)]
    dsimp only [Option.bind]
    rw [expectChar_cons]
    dsimp only [Option.bind]
    rw [show String.mk (keyName k).data = keyName k from rfl, nameToKey_keyName]
    rfl
  | wait ms =>
    rw [eventFields, List.append_assoc, List.append_assoc,
        show ['\n'] ++ rest = '\n' :: rest from rfl]
    rw [parseOneEvent,
        startsWith_false_of_headMismatch kpLit waitLit _ (by decide),
        startsWith_false_of_headMismatch krLit waitLit _ (by decide),
        if_neg Bool.false_ne_true, if_neg Bool.false_ne_true,
        if_pos (startsWith_refl_append waitLit _), List.drop_left]
    rw [parseNatChars_append]
    dsimp only [Option.bind]
    rw [expectChar_cons]
    rfl
  | mousePress m =>
    rw [eventFields]
    simp only [List.append_assoc]
    rw [show closeQuoteNl ++ rest = '"' :: '\n' :: rest from rfl]
    rw [show btnLit ++ ((buttonName m.button).data ++ '"' :: '\n' :: rest)
        = '\n' :: ("button = \"".data
            ++ ((buttonName m.button).data ++ '"' :: '\n' :: rest)) from rfl]
    rw [parseOneEvent,
        startsWith_false_of_headMismatch kpLit mpLit _ (by decide),
        startsWith_false_of_headMismatch krLit mpLit _ (by decide),
        startsWith_false_of_headMismatch waitLit mpLit _ (by decide),
        if_neg Bool.false_ne_true, if_neg Bool.false_ne_true,
        if_neg Bool.false_ne_true,
        if_pos (startsWith_refl_append mpLit _), List.drop_left]
    rw [parseXY_fields]
    dsimp only [Option.bind]
    rw [show ('\n' :: ("button = \"".data
          ++ ((buttonName m.button).data ++ '"' :: '\n' :: rest)))
        = btnLit ++ ((buttonName m.button).data ++ '"' :: '\n' :: rest) from rfl]
    rw [dropLit_self]
    dsimp only [Option.bind]
    rw [scanString_plain (buttonName m.button).data ('\n' :: rest)
      (buttonName_plain m.button)]
    dsimp only [Option.bind]
    rw [expectChar_cons]
    dsimp only [Option.bind]
    rw [show String.mk (buttonName m.button).data = buttonName m.button from rfl,
        nameToButton_buttonName]
    rfl
  | mouseRelease m =>
    rw [eventFields]
    simp only [List.append_assoc]
    rw [show closeQuoteNl ++ rest = '"' :: '\n' :: rest from rfl]
    rw [show btnLit ++ ((buttonName m.button).data ++ '"' :: '\n' :: rest)
        = '\n' :: ("button = \"".data
            ++ ((buttonName m.button).data ++ '"' :: '\n' :: rest)) from rfl]
    rw [parseOneEvent,
        startsWith_false_of_headMismatch kpLit mrLit _ (by decide),
        startsWith_false_of_headMismatch krLit mrLit _ (by decide),
        startsWith_false_of_headMismatch waitLit mrLit _ (by decide),
        startsWith_false_of_headMismatch mpLit mrLit _ (by decide),
        if_neg Bool.false_ne_true, if_neg Bool.false_ne_true,
        if_neg Bool.false_ne_true, if_neg Bool.false_ne_true,
        if_pos (startsWith_refl_append mrLit _), List.drop_left]
    rw [parseXY_fields]
    dsimp only [Option.bind]
    rw [show ('\n' :: ("button = \"".data
          ++ ((buttonName m.button).data ++ '"' :: '\n' :: rest)))
        = btnLit ++ ((buttonName m.button).data ++ '"' :: '\n' :: rest) from rfl]
    rw [dropLit_self]
    dsimp only [Option.bind]
    rw [scanString_plain (buttonName m.button).data ('\n' :: rest)
      (buttonName_plain m.button)]
    dsimp only [Option.bind]
    rw [expectChar_cons]
    dsimp only [Option.bind]
    rw [show String.mk (buttonName m.button).data = buttonName m.button from rfl,
        nameToButton_buttonName]
    rfl
  | mouseMove m =>
    rw [eventFields]
    simp only [List.append_assoc]
    rw [show ['\n'] ++ rest = '\n' :: rest from rfl]
    rw [parseOneEvent,
        startsWith_false_of_headMismatch kpLit mmLit _ (by decide),
        startsWith_false_of_headMismatch krLit mmLit _ (by decide),
        startsWith_false_of_headMismatch waitLit mmLit _ (by decide),
        startsWith_false_of_headMismatch mpLit mmLit _ (by decide),
        startsWith_false_of_headMismatch mrLit mmLit _ (by decide),
        if_neg Bool.false_ne_true, if_neg Bool.false_ne_true,
        if_neg Bool.false_ne_true, if_neg Bool.false_ne_true,
        if_neg Bool.false_ne_true,
        if_pos (startsWith_refl_append mmLit _), List.drop_left]
    rw [parseXY_fields]
    dsimp only [Option.bind]
    rw [expectChar_cons]
    rfl

theorem parseEventsAux_blocks : ∀ (evs : List Event) (fuel : Nat),
    evs.length ≤ fuel →
    parseEventsAux fuel
        ((evs.map (fun e => eventsMarker ++ eventFields e)).flatten)
      = some evs := by
  intro evs
  induction evs with
  | nil =>
    intro fuel _
    cases fuel <;> rfl
  | cons e es ih =>
    intro fuel hle
    cases fuel with
    | zero => exact absurd hle (by simp)
    | succ f =>
      rw [show ((e :: es).map (fun ev => eventsMarker ++ eventFields ev)).flatten
          = eventsMarker ++ (eventFields e
              ++ ((es.map (fun ev => eventsMarker ++ eventFields ev)).flatten))
          from by simp [List.append_assoc]]
      rw [show eventsMarker ++ (eventFields e
              ++ ((es.map (fun ev => eventsMarker ++ eventFields ev)).flatten))
          = '[' :: ("[events]]\n".data ++ (eventFields e
              ++ ((es.map (fun ev => eventsMarker ++ eventFields ev)).flatten)))
          from rfl]
      rw [parseEventsAux]
      rw [show ('[' :: ("[events]]\n".data ++ (eventFields e
              ++ ((es.map (fun ev => eventsMarker ++ eventFields ev)).flatten))))
          = eventsMarker ++ (eventFields e
              ++ ((es.map (fun ev => eventsMarker ++ eventFields ev)).flatten))
          from rfl]
      rw [dropLit_self]
      dsimp only [Option.bind]
      rw [parseOneEvent_fields]
      dsimp only [Option.bind]
      rw [ih f (Nat.le_of_succ_le_succ (by simpa using hle))]
      rfl

theorem blocks_length_ge (evs : List Event) :
    evs.length
      ≤ ((evs.map (fun e => eventsMarker ++ eventFields e)).flatten).length := by
  induction evs with
  | nil => simp
  | cons e es ih =>
    simp only [List.map_cons, List.flatten_cons, List.length_append,
      List.length_cons]
    rw [show eventsMarker.length = 11 from rfl]
    omega

theorem parseMacroText_post (m : MacroData) :
    parseMacroText (serializePostChars m) = some m := by
  rw [serializePostChars, List.append_assoc, List.append_assoc,
      show closeQuoteNl
          ++ ((m.events.map (fun e => eventsMarker ++ eventFields e)).flatten)
        = '"' :: '\n'
          :: ((m.events.map (fun e => eventsMarker ++ eventFields e)).flatten)
        from rfl]
  rw [parseMacroText, dropLit_self]
  dsimp only [Option.bind]
  rw [scanString_escape]
  dsimp only [Option.bind]
  rw [expectChar_cons]
  dsimp only [Option.bind]
  rw [parseEvents, parseEventsAux_blocks m.events _ (blocks_length_ge m.events)]
  rfl

/-- C3: the store round trip - save serializes the macro and applies the
cosmetic pass toml_string.replace("[[events]]\n\n", "[[events]]\n") of
src/macors.rs 129 before writing, and load parses the stored text back to
a macro equal to the original in description and event order, for every
macro over the embedded keys and buttons. -/
theorem store_round_trip (m : MacroData) :
    parseMacroText (storedText m) = some m := by
  rw [storedText_eq_post]
  exact parseMacroText_post m

/-- C9: whenever stop detection fires, the trimmed event list is a prefix
of the in-session recorded event list - the backward walk only removes a
contiguous suffix, so no interior event is removed and the relative order
of the surviving events is unchanged. -/
theorem trim_is_list_start (events : List Event) (stop : List Key) :
    trimStopSuffix events stop <+: events := by
  obtain ⟨t, ht⟩ := trimRev_suffix events.reverse stop
  exact ⟨t.reverse, by rw [trimStopSuffix, ← List.reverse_append, ht, List.reverse_reverse]⟩

end Macors
